import Mathlib

/-!
Verification of the Esoterica reflection code generator
(`Code/Applications/Reflector/TypeReflection/CodeGenerator.cpp`).

The generator walks a read-only reflection database (projects, headers, types,
properties, resource types) and produces generated source files: one type-info
file per header, a header/source pair per project, and one solution-wide
registration file per compilation mode.  The development below embeds the data
model and the generation logic shallowly: string emission is modelled at the
granularity of the emitted declarations, definitions, calls and checks, and the
control flow of every modelled C++ function is mirrored branch by branch.
-/

namespace EE

/-- Type identifiers (`TypeSystem::TypeID`).  The C++ type wraps a string hash;
it is modelled as a natural number where `0` is the invalid (default) ID, so
that `TypeID::IsValid` is the test against `0` and `==` is numeric equality. -/
abbrev TypeID := Nat

/-- `TypeID::IsValid` — a type ID is valid iff it is not the default (0). -/
def TypeID.IsValid (id : TypeID) : Bool := id != 0

/-- The array category of a reflected property
(`ReflectedProperty::IsStaticArrayProperty` / `IsDynamicArrayProperty`). -/
inductive ArrayKind where
  | scalar
  | staticArray
  | dynamicArray
deriving DecidableEq

/-- The structural category of a reflected property's type, abstracting the
tests the generator performs on `ReflectedProperty::m_typeID`:
`m_typeID == CoreTypeID::TResourcePtr`, `m_typeID == CoreTypeID::ResourcePtr`,
`IsCoreType( m_typeID )`, `IsEnumProperty()`, `IsBitFlagsProperty()`.
A property that is not a core type, not an enum and not a bit-flags value is a
nested reflected structure type. -/
inductive PropertyTypeCategory where
  | coreType
  | tResourcePtr
  | resourcePtr
  | enumType
  | bitFlagsType
  | structType
deriving DecidableEq

/-- A reflected property (`ReflectedProperty`), restricted to the fields the
code generator reads. -/
structure ReflectedProperty where
  m_name : String
  m_typeName : String
  m_templateArgTypeName : String
  m_propertyID : Nat
  m_category : PropertyTypeCategory
  m_arrayKind : ArrayKind
  m_arraySize : Nat
  m_isDevOnly : Bool
deriving DecidableEq

/-- `ReflectedProperty::IsStaticArrayProperty`. -/
def ReflectedProperty.IsStaticArrayProperty (p : ReflectedProperty) : Bool :=
  p.m_arrayKind == ArrayKind.staticArray

/-- `ReflectedProperty::IsDynamicArrayProperty`. -/
def ReflectedProperty.IsDynamicArrayProperty (p : ReflectedProperty) : Bool :=
  p.m_arrayKind == ArrayKind.dynamicArray

/-- `ReflectedProperty::IsArrayProperty`. -/
def ReflectedProperty.IsArrayProperty (p : ReflectedProperty) : Bool :=
  p.IsStaticArrayProperty || p.IsDynamicArrayProperty

/-- The test `m_typeID == CoreTypeID::TResourcePtr || m_typeID == CoreTypeID::ResourcePtr`
that selects the resource-pointer branch of the resource emitters. -/
def ReflectedProperty.IsResourcePtrProperty (p : ReflectedProperty) : Bool :=
  p.m_category == PropertyTypeCategory.tResourcePtr ||
  p.m_category == PropertyTypeCategory.resourcePtr

/-- `IsCoreType( m_typeID )` — resource pointers are themselves core types. -/
def ReflectedProperty.IsCoreTypeProperty (p : ReflectedProperty) : Bool :=
  p.m_category == PropertyTypeCategory.coreType ||
  p.m_category == PropertyTypeCategory.tResourcePtr ||
  p.m_category == PropertyTypeCategory.resourcePtr

/-- `ReflectedProperty::IsEnumProperty`. -/
def ReflectedProperty.IsEnumProperty (p : ReflectedProperty) : Bool :=
  p.m_category == PropertyTypeCategory.enumType

/-- `ReflectedProperty::IsBitFlagsProperty`. -/
def ReflectedProperty.IsBitFlagsProperty (p : ReflectedProperty) : Bool :=
  p.m_category == PropertyTypeCategory.bitFlagsType

/-- The test `!IsCoreType( m_typeID ) && !IsEnumProperty() && !IsBitFlagsProperty()`
that selects the nested-structure branch of the resource emitters. -/
def ReflectedProperty.IsStructProperty (p : ReflectedProperty) : Bool :=
  !p.IsCoreTypeProperty && !p.IsEnumProperty && !p.IsBitFlagsProperty

/-- An enumeration constant (`ReflectedType::m_enumConstants` entries): label,
integral value and description. -/
structure ReflectedEnumConstant where
  m_label : String
  m_value : Int
  m_description : String
deriving DecidableEq

instance : Inhabited ReflectedEnumConstant := ⟨⟨"", 0, ""⟩⟩

/-- A reflected type (`ReflectedType`), restricted to the fields the code
generator reads. -/
structure ReflectedType where
  m_ID : TypeID
  m_parentID : TypeID
  m_headerID : Nat
  m_namespace : String
  m_name : String
  m_isAbstract : Bool
  m_isEnum : Bool
  m_isDevOnly : Bool
  m_isEntityComponent : Bool
  m_properties : List ReflectedProperty
  m_enumConstants : List ReflectedEnumConstant
deriving DecidableEq

instance : Inhabited ReflectedType :=
  ⟨⟨0, 0, 0, "", "", false, false, false, false, [], []⟩⟩

/-- `ReflectedType::IsAbstract`. -/
def ReflectedType.IsAbstract (t : ReflectedType) : Bool := t.m_isAbstract

/-- `ReflectedType::IsEnum`. -/
def ReflectedType.IsEnum (t : ReflectedType) : Bool := t.m_isEnum

/-- `ReflectedType::IsEntityComponent`. -/
def ReflectedType.IsEntityComponent (t : ReflectedType) : Bool := t.m_isEntityComponent

/-- `ReflectedType::HasProperties`. -/
def ReflectedType.HasProperties (t : ReflectedType) : Bool :=
  !t.m_properties.isEmpty

/-- `ReflectedType::HasArrayProperties`. -/
def ReflectedType.HasArrayProperties (t : ReflectedType) : Bool :=
  t.m_properties.any (fun p => p.IsArrayProperty)

/-- `ReflectedType::HasDynamicArrayProperties`. -/
def ReflectedType.HasDynamicArrayProperties (t : ReflectedType) : Bool :=
  t.m_properties.any (fun p => p.IsDynamicArrayProperty)

/-- `ReflectedType::HasResourcePtrOrStructProperties` — the gate for the
resource load/unload/status/enumeration emitters: at least one resource-pointer
property or at least one nested-structure property. -/
def ReflectedType.HasResourcePtrOrStructProperties (t : ReflectedType) : Bool :=
  t.m_properties.any (fun p => p.IsResourcePtrProperty || p.IsStructProperty)

/-- A reflected header file (`ReflectedHeader`). -/
structure ReflectedHeader where
  m_ID : Nat
  m_path : String
  m_typeInfoPath : String
deriving DecidableEq

/-- A reflected project (`ReflectedProject`), restricted to the fields the code
generator reads.  `m_moduleHeaderID` is `0` when the project has no module
header (`m_moduleHeaderID.IsValid()` fails). -/
structure ReflectedProject where
  m_ID : Nat
  m_name : String
  m_moduleClassName : String
  m_dependencyCount : Nat
  m_isToolsProject : Bool
  m_moduleHeaderID : Nat
  m_headerFiles : List ReflectedHeader
deriving DecidableEq

instance : Inhabited ReflectedProject := ⟨⟨0, "", "", 0, false, 0, []⟩⟩

/-- A registered resource type (`ReflectedResourceType`), restricted to the
fields read while generating the solution registration files. -/
structure ReflectedResourceType where
  m_typeID : TypeID
  m_resourceTypeID : String
  m_friendlyName : String
  m_parents : List TypeID
  m_isDevOnly : Bool
deriving DecidableEq

/-- A registered data-file type (`ReflectedDataFileType`). -/
structure ReflectedDataFileType where
  m_typeID : TypeID
  m_extensionFourCC : Nat
  m_friendlyName : String
deriving DecidableEq

/-- The reflection database consumed by the generator.  Modelled from the spec:
`ReflectionDatabase` itself is not among the examined sources; the spec
describes it as a read-only queryable store of projects, types, resource types
and data-file types, where each type belongs to a header. -/
structure ReflectionDatabase where
  m_reflectedProjects : List ReflectedProject
  m_reflectedTypes : List ReflectedType
  m_resourceTypes : List ReflectedResourceType
  m_dataFileTypes : List ReflectedDataFileType
deriving DecidableEq

/-- `ReflectionDatabase::GetReflectedProjects`.  Modelled from the spec: the
pure query returning all projects. -/
def ReflectionDatabase.GetReflectedProjects (db : ReflectionDatabase) :
    List ReflectedProject :=
  db.m_reflectedProjects

/-- `ReflectionDatabase::GetAllTypesForHeader`.  Modelled from the spec: the
pure query returning all types recorded against a header, in database order. -/
def ReflectionDatabase.GetAllTypesForHeader (db : ReflectionDatabase)
    (headerID : Nat) : List ReflectedType :=
  db.m_reflectedTypes.filter (fun t => t.m_headerID == headerID)

/-- `ReflectionDatabase::GetAllTypesForProject`.  Modelled from the spec: the
pure query returning all types belonging to any of the project's headers, in
database order. -/
def ReflectionDatabase.GetAllTypesForProject (db : ReflectionDatabase)
    (projectID : Nat) : List ReflectedType :=
  match db.m_reflectedProjects.find? (fun p => p.m_ID == projectID) with
  | none => []
  | some prj =>
      db.m_reflectedTypes.filter
        (fun t => prj.m_headerFiles.any (fun h => h.m_ID == t.m_headerID))

/-- `ReflectionDatabase::GetType`.  Modelled from the spec: resolve a type by
its identity. -/
def ReflectionDatabase.GetType (db : ReflectionDatabase) (id : TypeID) :
    Option ReflectedType :=
  db.m_reflectedTypes.find? (fun t => t.m_ID == id)

/-!
## Topological sorter

Modelled from the spec: the generic dependency-ordering utility declared in
`Base/Utils/TopologicalSort.h` is used by `CodeGenerator.cpp` but its
definition is not among the examined sources.  Section 4.1 of the spec states
its contract — nodes each holding references to child nodes, a produced linear
order respecting all edges, failure reported iff a cycle exists, tie-breaking
stable by input order — and allows either mark-based DFS or iterative in-degree
reduction (Kahn's algorithm).  It is modelled here as Kahn's algorithm.  The
direction is fixed so that every node is placed *after* all of its children:
`SortTypesByDependencies` registers, as the children of node `i`, the indices
of the types that type `i` derives from, and the Type Ordering Pass (spec
section 4.2, concrete scenario A) must put parents before children.  The
explicit fuel argument bounds the number of rounds; each successful round
removes one node, so `remaining.length` rounds always suffice.
-/

/-- One Kahn round: emit the first remaining node all of whose children are
already emitted; fail if nodes remain but none is eligible (a cycle). -/
def TopologicalSorter.sortLoop (children : Nat → List Nat) :
    Nat → List Nat → List Nat → Option (List Nat)
  | 0, emitted, remaining =>
      if remaining.isEmpty then some emitted else none
  | fuel + 1, emitted, remaining =>
      if remaining.isEmpty then some emitted
      else
        match remaining.find? (fun i => (children i).all (fun c => emitted.contains c)) with
        | some i =>
            TopologicalSorter.sortLoop children fuel (emitted ++ [i]) (remaining.erase i)
        | none => none

/-- `TopologicalSorter::Sort`, on the node-index level: the nodes are
`0, ..., n-1` with `childLists` giving each node's children; the result is the
sorted index order, or `none` when a cycle was detected. -/
def TopologicalSorter.sort (childLists : List (List Nat)) : Option (List Nat) :=
  TopologicalSorter.sortLoop (fun i => childLists.getD i [])
    childLists.length [] (List.range childLists.length)

/-- The child-edge construction of `SortTypesByDependencies` (CodeGenerator.cpp
lines 28–37): node `j` is a child of node `i` iff `i != j` and
`structureTypes[j].m_ID == structureTypes[i].m_parentID` — that is, the node of
a type's parent is registered as a child of the type's node. -/
def typeChildIndices (structureTypes : List ReflectedType) (i : Nat) : List Nat :=
  (List.range structureTypes.length).filter
    (fun j => i != j &&
      ((structureTypes.getD j default).m_ID == (structureTypes.getD i default).m_parentID))

/-- `SortTypesByDependencies` (CodeGenerator.cpp lines 13–56).  Returns the
success flag together with the caller-visible type list: the C++ sorts the
vector in place only on success and leaves it untouched on failure. -/
def SortTypesByDependencies (structureTypes : List ReflectedType) :
    Bool × List ReflectedType :=
  if structureTypes.length ≤ 1 then (true, structureTypes)
  else
    match TopologicalSorter.sort
        ((List.range structureTypes.length).map (typeChildIndices structureTypes)) with
    | some order => (true, order.map (fun i => structureTypes.getD i default))
    | none => (false, structureTypes)

/-- Replacement of every `::` scope token by `_`
(`StringUtils::ReplaceAllOccurrencesInPlace( str, "::", "_" )`, scanning left
to right), on the character list. -/
def sanitizeScopeChars : List Char → List Char
  | ':' :: ':' :: rest => '_' :: sanitizeScopeChars rest
  | c :: rest => c :: sanitizeScopeChars rest
  | [] => []

/-- The sanitized namespace-qualified type name used for the generated free
function names: `m_namespace + m_name` with `::` replaced by `_`. -/
def sanitizedTypeName (t : ReflectedType) : String :=
  String.mk (sanitizeScopeChars (t.m_namespace ++ t.m_name).toList)

/-- The sanitized module name used for the generated project-level aggregate
function names: `m_moduleClassName` with `::` replaced by `_`. -/
def sanitizedModuleName (project : ReflectedProject) : String :=
  String.mk (sanitizeScopeChars project.m_moduleClassName.toList)

/-!
## Enum constant tables

`CodeGenerator::GenerateEnumTypeInfo` (lines 797–911) assigns each constant an
alphabetical-order index by sorting the constant indices with `eastl::sort` and
the comparator `elemA.m_label < elemB.m_label`, then inverting that index
permutation (`sortedOrder[sortingConstantIndices[i]] = i`); the constant table
itself is emitted in declaration order.  `eastl::sort` is external library
code; an unstable comparison sort is modelled by `List.insertionSort` with the
non-strict relation `¬ (label b < label a)`, which produces an order pairwise
consistent with the strict comparator (the order among equal labels is
unspecified in the C++). -/

/-- Lexicographic comparison of character sequences by scalar value, modelling
the `eastl::string` `operator<` the enum comparator relies on. -/
def charListLt : List Char → List Char → Bool
  | [], [] => false
  | [], _ :: _ => true
  | _ :: _, [] => false
  | a :: as, b :: bs =>
    if a.toNat < b.toNat then true
    else if b.toNat < a.toNat then false
    else charListLt as bs

/-- The strict lexicographic label comparison `elemA.m_label < elemB.m_label`. -/
def labelLt (a b : String) : Bool := charListLt a.toList b.toList

/-- The `sortingConstantIndices` computation of `GenerateEnumTypeInfo`. -/
def enumSortingConstantIndices (cs : List ReflectedEnumConstant) : List Nat :=
  List.insertionSort
    (fun a b => labelLt (cs.getD b default).m_label (cs.getD a default).m_label = false)
    (List.range cs.length)

/-- The `sortedOrder` computation of `GenerateEnumTypeInfo`:
`sortedOrder[sortingConstantIndices[i]] = i` for each position `i`. -/
def enumSortedOrder (cs : List ReflectedEnumConstant) : List Nat :=
  (enumSortingConstantIndices cs).enum.foldl
    (fun acc p => acc.set p.2 p.1) (List.replicate cs.length 0)

/-- One row of the emitted enum constant table (`EnumInfo::ConstantInfo`). -/
structure ConstantInfo where
  m_ID : String
  m_value : Int
  m_alphabeticalOrder : Nat
  m_description : String
deriving DecidableEq

/-- The constant table emitted by `GenerateEnumTypeInfo` (lines 895–906): one
row per constant in declaration order, each carrying its alphabetical-order
index. -/
def GenerateEnumConstantTable (typeInfo : ReflectedType) : List ConstantInfo :=
  let cs := typeInfo.m_enumConstants
  let sortedOrder := enumSortedOrder cs
  cs.enum.map (fun p =>
    { m_ID := p.2.m_label
      m_value := p.2.m_value
      m_alphabeticalOrder := sortedOrder.getD p.1 0
      m_description := p.2.m_description })

/-!
## The generated `GetResourceLoadingStatus` body

`CodeGenerator::GenerateTypeInfoResourceLoadingStatusMethod` (lines 2144–2267)
emits, per relevant property and in declaration order, one of four check
shapes.  The emitted body is modelled as a list of abstract check statements,
and its run-time behaviour as an evaluator parameterised by an environment of
observations: for a resource-pointer check, the observation is the joint
outcome of the two emitted conditions (`HasLoadingFailed()` first, then
`IsSet() && !IsLoaded()`); for a nested-structure check it is the status
returned by the nested type's own `GetResourceLoadingStatus`. -/

/-- The runtime `LoadingStatus` values the generated body manipulates. -/
inductive LoadingStatus where
  | Unloaded
  | Loading
  | Loaded
  | Unloading
  | Failed
deriving DecidableEq

/-- Outcome of the two emitted conditions of one resource-pointer check. -/
inductive ResourceObservation where
  | failed
  | stillLoading
  | fine
deriving DecidableEq

/-- One abstract check statement of the generated body. -/
inductive LoadingStmt where
  | checkResource (propertyName : String) (elementIdx : Option Nat) (guarded : Bool)
  | checkResourceDynArray (propertyName : String) (guarded : Bool)
  | checkStructure (propertyName : String) (elementIdx : Option Nat) (guarded : Bool)
  | checkStructureDynArray (propertyName : String) (guarded : Bool)
deriving DecidableEq

/-- The checks emitted for one property, mirroring the branch structure of the
property loop: resource-pointer branch first, then the nested-structure
branch, each split into dynamic-array / static-array / scalar cases (static
arrays are unrolled element by element up to `m_arraySize`). -/
def loadingStatusChecksForProperty (p : ReflectedProperty) : List LoadingStmt :=
  if p.IsResourcePtrProperty then
    if p.IsArrayProperty then
      if p.IsDynamicArrayProperty then
        [LoadingStmt.checkResourceDynArray p.m_name p.m_isDevOnly]
      else
        (List.range p.m_arraySize).map
          (fun i => LoadingStmt.checkResource p.m_name (some i) p.m_isDevOnly)
    else
      [LoadingStmt.checkResource p.m_name none p.m_isDevOnly]
  else if p.IsStructProperty then
    if p.IsArrayProperty then
      if p.IsDynamicArrayProperty then
        [LoadingStmt.checkStructureDynArray p.m_name p.m_isDevOnly]
      else
        (List.range p.m_arraySize).map
          (fun i => LoadingStmt.checkStructure p.m_name (some i) p.m_isDevOnly)
    else
      [LoadingStmt.checkStructure p.m_name none p.m_isDevOnly]
  else []

/-- The full list of checks of the generated `GetResourceLoadingStatus` body:
nothing when the type has no resource-pointer or nested-structure property. -/
def GenerateTypeInfoResourceLoadingStatusMethod (t : ReflectedType) : List LoadingStmt :=
  if t.HasResourcePtrOrStructProperties then
    (t.m_properties.map loadingStatusChecksForProperty).flatten
  else []

/-- The observation environment the generated body runs against. -/
structure LoadingEnv where
  resourceObs : String → Option Nat → ResourceObservation
  resourceArrayObs : String → List ResourceObservation
  nestedStatus : String → Option Nat → LoadingStatus
  nestedArrayStatus : String → List LoadingStatus

/-- The emitted dynamic-array resource loop: per element, a failure sets the
running status to `Failed`; a still-loading element returns `Loading`
immediately (`Except.error` models the early `return`). -/
def runResourceArrayLoop :
    List ResourceObservation → LoadingStatus → Except LoadingStatus LoadingStatus
  | [], status => Except.ok status
  | obs :: rest, status =>
    match obs with
    | ResourceObservation.failed => runResourceArrayLoop rest LoadingStatus.Failed
    | ResourceObservation.stillLoading => Except.error LoadingStatus.Loading
    | ResourceObservation.fine => runResourceArrayLoop rest status

/-- The emitted dynamic-array nested-structure loop: per element the running
status is assigned the element's status, then `Loading` returns immediately. -/
def runStructureArrayLoop :
    List LoadingStatus → LoadingStatus → Except LoadingStatus LoadingStatus
  | [], status => Except.ok status
  | s :: rest, _ =>
    if s = LoadingStatus.Loading then Except.error LoadingStatus.Loading
    else runStructureArrayLoop rest s

/-- Evaluation of the generated body over its check list, starting from the
running status (initialised to `Loaded` by the emitted declaration). -/
def runLoadingChecks (env : LoadingEnv) :
    List LoadingStmt → LoadingStatus → LoadingStatus
  | [], status => status
  | stmt :: rest, status =>
    match stmt with
    | LoadingStmt.checkResource name idx _ =>
      match env.resourceObs name idx with
      | ResourceObservation.failed => runLoadingChecks env rest LoadingStatus.Failed
      | ResourceObservation.stillLoading => LoadingStatus.Loading
      | ResourceObservation.fine => runLoadingChecks env rest status
    | LoadingStmt.checkResourceDynArray name _ =>
      match runResourceArrayLoop (env.resourceArrayObs name) status with
      | Except.ok status2 => runLoadingChecks env rest status2
      | Except.error r => r
    | LoadingStmt.checkStructure name idx _ =>
      let s := env.nestedStatus name idx
      if s = LoadingStatus.Loading then LoadingStatus.Loading
      else runLoadingChecks env rest s
    | LoadingStmt.checkStructureDynArray name _ =>
      match runStructureArrayLoop (env.nestedArrayStatus name) status with
      | Except.ok status2 => runLoadingChecks env rest status2
      | Except.error r => r

/-- The result of the generated `GetResourceLoadingStatus` body for a type
under a given observation environment. -/
def GetResourceLoadingStatus (env : LoadingEnv) (t : ReflectedType) : LoadingStatus :=
  runLoadingChecks env (GenerateTypeInfoResourceLoadingStatusMethod t) LoadingStatus.Loaded

/-- A check observes "still loading" when some of its emitted loading
conditions fires. -/
def LoadingStmt.ObservesLoading (env : LoadingEnv) : LoadingStmt → Bool
  | LoadingStmt.checkResource name idx _ =>
      env.resourceObs name idx == ResourceObservation.stillLoading
  | LoadingStmt.checkResourceDynArray name _ =>
      (env.resourceArrayObs name).any (fun o => o == ResourceObservation.stillLoading)
  | LoadingStmt.checkStructure name idx _ =>
      env.nestedStatus name idx == LoadingStatus.Loading
  | LoadingStmt.checkStructureDynArray name _ =>
      (env.nestedArrayStatus name).any (fun s => s == LoadingStatus.Loading)

/-- A check observes a failure when some of its emitted failure conditions
fires (for nested structures: the nested status is `Failed`). -/
def LoadingStmt.ObservesFailed (env : LoadingEnv) : LoadingStmt → Bool
  | LoadingStmt.checkResource name idx _ =>
      env.resourceObs name idx == ResourceObservation.failed
  | LoadingStmt.checkResourceDynArray name _ =>
      (env.resourceArrayObs name).any (fun o => o == ResourceObservation.failed)
  | LoadingStmt.checkStructure name idx _ =>
      env.nestedStatus name idx == LoadingStatus.Failed
  | LoadingStmt.checkStructureDynArray name _ =>
      (env.nestedArrayStatus name).any (fun s => s == LoadingStatus.Failed)

/-- The loading-free semantics of one check, as a plain fold step: a failed
resource observation forces `Failed`, a fine one keeps the status, and a
nested-structure check *replaces* the running status with the nested result
(for a dynamic array: with the last element's result). -/
def loadingFoldStep (env : LoadingEnv) (status : LoadingStatus) :
    LoadingStmt → LoadingStatus
  | LoadingStmt.checkResource name idx _ =>
      if env.resourceObs name idx == ResourceObservation.failed then LoadingStatus.Failed
      else status
  | LoadingStmt.checkResourceDynArray name _ =>
      (env.resourceArrayObs name).foldl
        (fun st obs =>
          if obs == ResourceObservation.failed then LoadingStatus.Failed else st)
        status
  | LoadingStmt.checkStructure name idx _ => env.nestedStatus name idx
  | LoadingStmt.checkStructureDynArray name _ =>
      (env.nestedArrayStatus name).foldl (fun _ s => s) status

/-!
## Generated files

Emission is modelled at the granularity of the emitted declarations,
definitions and calls.  Each record carries a `m_guarded` flag that is `true`
exactly when the C++ wraps the emitted block in the development-tools
conditional-compilation guard (`#if EE_DEVELOPMENT_TOOLS` or
`EE_DEVELOPMENT_TOOLS_ONLY`). -/

/-- The two build modes (`CompilationMode`). -/
inductive CompilationMode where
  | Runtime
  | Tools
deriving DecidableEq

/-- The three free functions generated per type. -/
inductive GeneratedFnKind where
  | registerType
  | createDefaultInstance
  | unregisterType
deriving DecidableEq

/-- A generated free-function declaration for one type. -/
structure EmittedDecl where
  m_kind : GeneratedFnKind
  m_typeName : String
  m_guarded : Bool
deriving DecidableEq

/-- A generated call to a per-type or per-project function. -/
structure EmittedCall where
  m_targetName : String
  m_guarded : Bool
deriving DecidableEq

/-- The `RegisterType_<name>( typeRegistry )` call emitted for one type inside
the project aggregate `_RegisterTypes` body (lines 304–321). -/
def registerTypeCallFor (t : ReflectedType) : EmittedCall :=
  ⟨sanitizedTypeName t, t.m_isDevOnly⟩

/-- The `CreateDefaultInstance_<name>()` call emitted for one type inside the
project aggregate `_CreateDefaultInstances` body (lines 330–352). -/
def createDefaultInstanceCallFor (t : ReflectedType) : EmittedCall :=
  ⟨sanitizedTypeName t, t.m_isDevOnly⟩

/-- The `UnregisterType_<name>( typeRegistry )` call emitted for one type
inside the project aggregate `_UnregisterTypes` body (lines 362–379). -/
def unregisterTypeCallFor (t : ReflectedType) : EmittedCall :=
  ⟨sanitizedTypeName t, t.m_isDevOnly⟩

/-- The aggregate `_RegisterTypes` body: one call per type, in sorted order. -/
def projectRegisterTypeCalls (ts : List ReflectedType) : List EmittedCall :=
  ts.map registerTypeCallFor

/-- The aggregate `_CreateDefaultInstances` body: abstract types and enums are
skipped (`continue`), the rest get one call each, in sorted order. -/
def projectCreateDefaultInstanceCalls (ts : List ReflectedType) : List EmittedCall :=
  (ts.filter (fun t => !(t.IsAbstract || t.IsEnum))).map createDefaultInstanceCallFor

/-- The aggregate `_UnregisterTypes` body: one call per type, iterating the
sorted list in reverse (`rbegin` to `rend`). -/
def projectUnregisterTypeCalls (ts : List ReflectedType) : List EmittedCall :=
  ts.reverse.map unregisterTypeCallFor

/-- The free-function declarations emitted for one type into the project
type-info header (lines 212–247): register, (create-default unless abstract or
enum), unregister — each wrapped in the guard iff the type is
development-only. -/
def projectHeaderDeclsFor (t : ReflectedType) : List EmittedDecl :=
  [⟨GeneratedFnKind.registerType, sanitizedTypeName t, t.m_isDevOnly⟩] ++
  (if !t.IsAbstract && !t.IsEnum then
    [⟨GeneratedFnKind.createDefaultInstance, sanitizedTypeName t, t.m_isDevOnly⟩]
  else []) ++
  [⟨GeneratedFnKind.unregisterType, sanitizedTypeName t, t.m_isDevOnly⟩]

/-- All per-type declarations of the project type-info header, in sorted
order. -/
def projectHeaderDecls (ts : List ReflectedType) : List EmittedDecl :=
  (ts.map projectHeaderDeclsFor).flatten

/-- Payload of an emitted type-info block: the enum constant table for
enumerations, the `GetResourceLoadingStatus` checks for structures. -/
inductive TypeInfoPayload where
  | enumInfo (constants : List ConstantInfo)
  | structInfo (loadingStatusChecks : List LoadingStmt)
deriving DecidableEq

/-- The kinds of blocks emitted into a per-header type-info file. -/
inductive HeaderItemKind where
  | typeInfoBlock
  | componentBlock
  | registerFnDef
  | createDefaultFnDef
  | unregisterFnDef
deriving DecidableEq

/-- One emitted block of a per-header type-info file. -/
structure HeaderFileItem where
  m_kind : HeaderItemKind
  m_typeName : String
  m_guarded : Bool
  m_payload : Option TypeInfoPayload
deriving DecidableEq

/-- The `LogError` text of the invalid-parent validation
(CodeGenerator.cpp lines 599–603). -/
def invalidParentMessage (t : ReflectedType) : String :=
  "Invalid parent hierarchy for type (" ++ t.m_namespace ++ t.m_name ++
  "), all registered types must derived from a registered type."

/-- The `LogError` text of the failed type-ordering pass
(CodeGenerator.cpp lines 185–188 and 277–280). -/
def cyclicDependencyMessage (project : ReflectedProject) : String :=
  "Cyclic header dependency detected in project: " ++ project.m_name

/-- Stand-in for the fatal `EE_ASSERT( pParentTypeInfo != nullptr )` at line
606: a valid parent ID that does not resolve halts generation. -/
def parentLookupAssertMessage : String :=
  "ASSERTION FAILED: parent type lookup returned null"

/-- The blocks emitted for one type by the per-type loop of
`CodeGenerator::GenerateTypeInfoFileForHeader` (lines 587–657): the type-info
block (enum or structure variant, with the invalid-parent validation and the
parent lookup before the structure variant), the entity-component block when
applicable, and the three registration free-function definitions. -/
def GenerateTypeInfoForType (db : ReflectionDatabase) (typeInfo : ReflectedType) :
    Except String (List HeaderFileItem) :=
  let name := sanitizedTypeName typeInfo
  let blockResult : Except String (List HeaderFileItem) :=
    if typeInfo.IsEnum then
      Except.ok [⟨HeaderItemKind.typeInfoBlock, name, typeInfo.m_isDevOnly,
        some (TypeInfoPayload.enumInfo (GenerateEnumConstantTable typeInfo))⟩]
    else if !(TypeID.IsValid typeInfo.m_parentID) then
      Except.error (invalidParentMessage typeInfo)
    else
      match db.GetType typeInfo.m_parentID with
      | none => Except.error parentLookupAssertMessage
      | some _ =>
        Except.ok [⟨HeaderItemKind.typeInfoBlock, name, typeInfo.m_isDevOnly,
          some (TypeInfoPayload.structInfo
            (GenerateTypeInfoResourceLoadingStatusMethod typeInfo))⟩]
  blockResult.map (fun blockItems =>
    blockItems ++
    (if typeInfo.IsEntityComponent then
      [⟨HeaderItemKind.componentBlock, name, typeInfo.m_isDevOnly, none⟩]
    else []) ++
    [⟨HeaderItemKind.registerFnDef, name, typeInfo.m_isDevOnly, none⟩] ++
    (if !typeInfo.IsAbstract && !typeInfo.IsEnum then
      [⟨HeaderItemKind.createDefaultFnDef, name, typeInfo.m_isDevOnly, none⟩]
    else []) ++
    [⟨HeaderItemKind.unregisterFnDef, name, typeInfo.m_isDevOnly, none⟩])

/-- A generated file.  Paths are handled by the external file-system
collaborator and are represented only by the owning header/project identity. -/
inductive GFile where
  | headerTypeInfo (headerID : Nat) (items : List HeaderFileItem)
  | projectHeader (projectID : Nat) (moduleName : String) (decls : List EmittedDecl)
  | projectSource (projectID : Nat) (moduleName : String)
      (registerCalls createDefaultCalls unregisterCalls : List EmittedCall)
  | solutionRegistration (mode : CompilationMode) (moduleIncludes : List String)
      (registerProjectCalls createDefaultProjectCalls unregisterProjectCalls : List String)
      (resourceRegistrations resourceUnregistrations : List ReflectedResourceType)
      (hasDataFileRegistration : Bool)
deriving DecidableEq

/-- `CodeGenerator::GenerateTypeInfoFileForHeader` (lines 565–667): the per-type
blocks are accumulated left to right; the first failing type aborts with its
error and no file is produced. -/
def GenerateTypeInfoFileForHeader (db : ReflectionDatabase) (header : ReflectedHeader)
    (typesInHeader : List ReflectedType) : Except String GFile :=
  (typesInHeader.foldlM
    (fun acc t => (GenerateTypeInfoForType db t).map (fun items => acc ++ items))
    ([] : List HeaderFileItem)).map (GFile.headerTypeInfo header.m_ID)

/-- `CodeGenerator::GenerateProjectTypeInfoHeaderFile` (lines 180–270): sort the
project's types by dependencies — on failure, log the cyclic-dependency error —
then emit the per-type declarations in sorted order. -/
def GenerateProjectTypeInfoHeaderFile (db : ReflectionDatabase)
    (project : ReflectedProject) : Except String GFile :=
  let typesInProject := db.GetAllTypesForProject project.m_ID
  match SortTypesByDependencies typesInProject with
  | (false, _) => Except.error (cyclicDependencyMessage project)
  | (true, sorted) =>
    Except.ok (GFile.projectHeader project.m_ID (sanitizedModuleName project)
      (projectHeaderDecls sorted))

/-- `CodeGenerator::GenerateProjectTypeInfoSourceFile` (lines 272–394): sort the
project's types by dependencies — on failure, log the cyclic-dependency error —
then emit the three aggregate function bodies. -/
def GenerateProjectTypeInfoSourceFile (db : ReflectionDatabase)
    (project : ReflectedProject) : Except String GFile :=
  let typesInProject := db.GetAllTypesForProject project.m_ID
  match SortTypesByDependencies typesInProject with
  | (false, _) => Except.error (cyclicDependencyMessage project)
  | (true, sorted) =>
    Except.ok (GFile.projectSource project.m_ID (sanitizedModuleName project)
      (projectRegisterTypeCalls sorted)
      (projectCreateDefaultInstanceCalls sorted)
      (projectUnregisterTypeCalls sorted))

/-- The selection predicate realised by the project-filtering loop of
`GenerateSolutionTypeRegistrationFile`: tools-only projects are removed in
runtime mode, and module-less projects are removed in both modes. -/
def solutionProjectPredicate (mode : CompilationMode) (p : ReflectedProject) : Bool :=
  (!(mode == CompilationMode.Runtime) || !p.m_isToolsProject) &&
  TypeID.IsValid p.m_moduleHeaderID

/-- `TVector::erase_unsorted( begin() + i )`: the last element is moved into
slot `i` and the last slot is popped. -/
def eraseUnsorted (projects : List ReflectedProject) (i : Nat) : List ReflectedProject :=
  (projects.set i (projects.getLast?.getD default)).dropLast

/-- The project-filtering loop of `GenerateSolutionTypeRegistrationFile`
(lines 412–432): scan with an index; a rejected project is removed with
`erase_unsorted` and the index stays put, otherwise the index advances.  The
loop performs exactly `projects.length - i` iterations — each step either
shrinks the list by one or advances the index — and the `fuel` argument bounds
that count, making the recursion structural. -/
def selectProjectsLoop (mode : CompilationMode) :
    Nat → List ReflectedProject → Nat → List ReflectedProject
  | 0, projects, _ => projects
  | fuel + 1, projects, i =>
    if i < projects.length then
      if mode == CompilationMode.Runtime &&
          (projects.getD i default).m_isToolsProject then
        selectProjectsLoop mode fuel (eraseUnsorted projects i) i
      else if !(TypeID.IsValid (projects.getD i default).m_moduleHeaderID) then
        selectProjectsLoop mode fuel (eraseUnsorted projects i) i
      else
        selectProjectsLoop mode fuel projects (i + 1)
    else projects

/-- The `eastl::sort` call over the selected projects with the comparator
`pA.m_dependencyCount < pB.m_dependencyCount` (lines 405–434).  `eastl::sort`
is external library code; the unstable comparison sort is modelled by
`List.insertionSort` with the corresponding non-strict relation. -/
def eastlSortProjectsByDependencyCount (projects : List ReflectedProject) :
    List ReflectedProject :=
  List.insertionSort (fun a b => a.m_dependencyCount ≤ b.m_dependencyCount) projects

/-- The selected and dependency-ordered project list of the solution
registration file for one mode. -/
def solutionProjects (db : ReflectionDatabase) (mode : CompilationMode) :
    List ReflectedProject :=
  eastlSortProjectsByDependencyCount
    (selectProjectsLoop mode db.GetReflectedProjects.length
      db.GetReflectedProjects 0)

/-- The resource registrations emitted by
`CodeGenerator::GenerateResourceRegistrationMethods` (lines 702–724):
database order, skipping development-only resources in runtime mode. -/
def resourceRegistrationEntries (mode : CompilationMode)
    (resourceTypes : List ReflectedResourceType) : List ReflectedResourceType :=
  resourceTypes.filter
    (fun r => !(mode == CompilationMode.Runtime && r.m_isDevOnly))

/-- The resource unregistrations emitted by
`CodeGenerator::GenerateResourceRegistrationMethods` (lines 734–744): reverse
database order, skipping development-only resources in runtime mode. -/
def resourceUnregistrationEntries (mode : CompilationMode)
    (resourceTypes : List ReflectedResourceType) : List ReflectedResourceType :=
  resourceTypes.reverse.filter
    (fun r => !(mode == CompilationMode.Runtime && r.m_isDevOnly))

/-- `CodeGenerator::GenerateSolutionTypeRegistrationFile` (lines 396–563):
select and sort the projects, then emit the module includes, the aggregate
register / create-default calls (forward order), the aggregate unregister
calls (reverse order), the resource registration pair and — in tools mode —
the data-file registration pair. -/
def GenerateSolutionTypeRegistrationFile (db : ReflectionDatabase)
    (mode : CompilationMode) : GFile :=
  let projects := solutionProjects db mode
  GFile.solutionRegistration mode
    (projects.map (fun p => p.m_name))
    (projects.map sanitizedModuleName)
    (projects.map sanitizedModuleName)
    (projects.reverse.map sanitizedModuleName)
    (resourceRegistrationEntries mode db.m_resourceTypes)
    (resourceUnregistrationEntries mode db.m_resourceTypes)
    (mode == CompilationMode.Tools)

/-!
## The generation driver -/

/-- The generator's mutable state: the accumulated generated files and the
last-error message. -/
structure GenState where
  m_generatedFiles : List GFile
  m_errorMessage : String
deriving DecidableEq

/-- Append one generated file (`m_generatedFiles.emplace_back`). -/
def GenState.addFile (st : GenState) (f : GFile) : GenState :=
  { st with m_generatedFiles := st.m_generatedFiles ++ [f] }

/-- `CodeGenerator::LogError`: record the message and return `false`. -/
def LogError (st : GenState) (msg : String) : Bool × GenState :=
  (false, { st with m_errorMessage := msg })

/-- The per-header loop of `CodeGenerator::GenerateCodeForProject`
(lines 142–162): the module header is skipped, headers without types are
skipped, and the first failing header generation aborts the project. -/
def GenerateHeaderFiles (db : ReflectionDatabase) (project : ReflectedProject) :
    List ReflectedHeader → GenState → Bool × GenState
  | [], st => (true, st)
  | header :: rest, st =>
    if header.m_ID == project.m_moduleHeaderID then
      GenerateHeaderFiles db project rest st
    else
      let typesInHeader := db.GetAllTypesForHeader header.m_ID
      if typesInHeader.isEmpty then GenerateHeaderFiles db project rest st
      else
        match GenerateTypeInfoFileForHeader db header typesInHeader with
        | Except.error e => LogError st e
        | Except.ok f => GenerateHeaderFiles db project rest (st.addFile f)

/-- `CodeGenerator::GenerateCodeForProject` (lines 131–178). -/
def GenerateCodeForProject (db : ReflectionDatabase) (project : ReflectedProject)
    (st : GenState) : Bool × GenState :=
  match GenerateHeaderFiles db project project.m_headerFiles st with
  | (false, st1) => (false, st1)
  | (true, st1) =>
    match GenerateProjectTypeInfoHeaderFile db project with
    | Except.error e => LogError st1 e
    | Except.ok f1 =>
      let st2 := st1.addFile f1
      match GenerateProjectTypeInfoSourceFile db project with
      | Except.error e => LogError st2 e
      | Except.ok f2 => (true, st2.addFile f2)

/-- The solution-registration step always succeeds and appends its file. -/
def GenerateSolutionRegistrationStep (db : ReflectionDatabase)
    (mode : CompilationMode) (st : GenState) : Bool × GenState :=
  (true, st.addFile (GenerateSolutionTypeRegistrationFile db mode))

/-- `CodeGenerator::GenerateCodeForSolution` (lines 97–129).  Module-less
projects are skipped; for the others `GenerateCodeForProject` is invoked and —
mirroring the unchecked call at line 110 — its Boolean result is discarded;
then the two solution registration files are generated. -/
def GenerateCodeForSolution (db : ReflectionDatabase) (st : GenState) :
    Bool × GenState :=
  let st1 := db.GetReflectedProjects.foldl
    (fun acc prj =>
      if !(TypeID.IsValid prj.m_moduleHeaderID) then acc
      else (GenerateCodeForProject db prj acc).2) st
  match GenerateSolutionRegistrationStep db CompilationMode.Runtime st1 with
  | (false, st2) => (false, st2)
  | (true, st2) =>
    match GenerateSolutionRegistrationStep db CompilationMode.Tools st2 with
    | (false, st3) => (false, st3)
    | (true, st3) => (true, st3)

/-!
## Verification of the topological sorter -/

namespace TopologicalSorter

/-- The child relation of a sorter instance: `a` is a child of `b`. -/
def childRel (children : Nat → List Nat) (a b : Nat) : Prop := a ∈ children b

/-- A cycle in the child relation. -/
def HasCycle (children : Nat → List Nat) : Prop :=
  ∃ x, Relation.TransGen (childRel children) x x

/-- The produced order places every node after all of its children. -/
def SortedAfterChildren (children : Nat → List Nat) (l : List Nat) : Prop :=
  ∀ k (hk : k < l.length), ∀ c ∈ children (l.get ⟨k, hk⟩), c ∈ l.take k

theorem sortLoop_shape (children : Nat → List Nat) :
    ∀ fuel emitted remaining out,
      sortLoop children fuel emitted remaining = some out →
      ∃ ext, out = emitted ++ ext ∧ ext.Perm remaining := by
  intro fuel
  induction fuel with
  | zero =>
    intro emitted remaining out h
    simp only [sortLoop] at h
    split at h
    · next hemp =>
      cases h
      exact ⟨[], by simp, by simp [List.isEmpty_iff.mp hemp]⟩
    · cases h
  | succ fuel ih =>
    intro emitted remaining out h
    simp only [sortLoop] at h
    split at h
    · next hemp =>
      cases h
      exact ⟨[], by simp, by simp [List.isEmpty_iff.mp hemp]⟩
    · next hemp =>
      split at h
      · next i hfind =>
        obtain ⟨ext, hout, hperm⟩ := ih _ _ _ h
        have hmem : i ∈ remaining := List.mem_of_find?_eq_some hfind
        refine ⟨i :: ext, ?_, ?_⟩
        · rw [hout, List.append_assoc]
          rfl
        · exact (hperm.cons i).trans (List.perm_cons_erase hmem).symm
      · cases h

theorem sortedAfterChildren_append {children : Nat → List Nat}
    {emitted : List Nat} {i : Nat}
    (hs : SortedAfterChildren children emitted)
    (hi : ∀ c ∈ children i, c ∈ emitted) :
    SortedAfterChildren children (emitted ++ [i]) := by
  intro k hk c hc
  have hlen : (emitted ++ [i]).length = emitted.length + 1 := by simp
  rcases Nat.lt_or_ge k emitted.length with hlt | hge
  · have hget : (emitted ++ [i]).get ⟨k, hk⟩ = emitted.get ⟨k, hlt⟩ := by
      simp [List.getElem_append, hlt]
    rw [hget] at hc
    have htake : (emitted ++ [i]).take k = emitted.take k := by
      rw [List.take_append_eq_append_take]
      have : k - emitted.length = 0 := by omega
      simp [this]
    rw [htake]
    exact hs k hlt c hc
  · have hk' : k = emitted.length := by omega
    subst hk'
    have hget : (emitted ++ [i]).get ⟨emitted.length, hk⟩ = i := by
      simp
    rw [hget] at hc
    have htake : (emitted ++ [i]).take emitted.length = emitted := by
      exact List.take_left emitted [i]
    rw [htake]
    exact hi c hc

theorem sortLoop_sorted (children : Nat → List Nat) :
    ∀ fuel emitted remaining out,
      sortLoop children fuel emitted remaining = some out →
      SortedAfterChildren children emitted →
      SortedAfterChildren children out := by
  intro fuel
  induction fuel with
  | zero =>
    intro emitted remaining out h hs
    simp only [sortLoop] at h
    split at h
    · cases h; exact hs
    · cases h
  | succ fuel ih =>
    intro emitted remaining out h hs
    simp only [sortLoop] at h
    split at h
    · cases h; exact hs
    · split at h
      · next i hfind =>
        have hpred := List.find?_some hfind
        have hchild : ∀ c ∈ children i, c ∈ emitted := by
          intro c hc
          have := List.all_eq_true.mp hpred c hc
          simpa using this
        exact ih _ _ _ h (sortedAfterChildren_append hs hchild)
      · cases h

theorem exists_source (children : Nat → List Nat) (remaining : List Nat)
    (hne : remaining ≠ []) (hnc : ¬ HasCycle children) :
    ∃ m, m ∈ remaining ∧ ∀ c ∈ children m, c ∉ remaining := by
  by_contra hcon
  push_neg at hcon
  haveI : Fintype {x // x ∈ remaining} := List.Subtype.fintype remaining
  let r : {x // x ∈ remaining} → {x // x ∈ remaining} → Prop :=
    fun a b => a.val ∈ children b.val
  haveI : IsIrrefl {x // x ∈ remaining} (Relation.TransGen r) := by
    constructor
    intro a ha
    exact hnc ⟨a.val, Relation.TransGen.lift Subtype.val (fun x y hxy => hxy) ha⟩
  have hwf : WellFounded (Relation.TransGen r) :=
    Finite.wellFounded_of_trans_of_irrefl _
  obtain ⟨x0, hx0⟩ := List.exists_mem_of_ne_nil remaining hne
  obtain ⟨m, -, hmin⟩ := hwf.has_min Set.univ ⟨⟨x0, hx0⟩, Set.mem_univ _⟩
  obtain ⟨c, hc, hcrem⟩ := hcon m.val m.property
  exact hmin ⟨c, hcrem⟩ (Set.mem_univ _) (Relation.TransGen.single hc)

theorem sortLoop_isSome (children : Nat → List Nat) :
    ∀ fuel emitted remaining,
      remaining.length ≤ fuel →
      (∀ x ∈ remaining, ∀ c ∈ children x, c ∈ emitted ∨ c ∈ remaining) →
      ¬ HasCycle children →
      (sortLoop children fuel emitted remaining).isSome := by
  intro fuel
  induction fuel with
  | zero =>
    intro emitted remaining hle _ _
    have : remaining = [] := List.length_eq_zero.mp (Nat.le_zero.mp hle)
    subst this
    simp [sortLoop]
  | succ fuel ih =>
    intro emitted remaining hle hcl hnc
    by_cases hemp : remaining.isEmpty
    · simp [sortLoop, hemp]
    · have hne : remaining ≠ [] := by
        intro h; subst h; simp at hemp
      obtain ⟨m, hm, hnochild⟩ := exists_source children remaining hne hnc
      have hpred : ((children m).all (fun c => emitted.contains c)) = true := by
        rw [List.all_eq_true]
        intro c hc
        rcases hcl m hm c hc with h | h
        · simpa using h
        · exact absurd h (hnochild c hc)
      have hfind :
          (remaining.find? (fun i => (children i).all (fun c => emitted.contains c))).isSome := by
        rw [List.find?_isSome]
        exact ⟨m, hm, hpred⟩
      obtain ⟨i, hi⟩ := Option.isSome_iff_exists.mp hfind
      have himem : i ∈ remaining := List.mem_of_find?_eq_some hi
      simp only [sortLoop, hemp, if_false, Bool.false_eq_true, hi]
      apply ih
      · rw [List.length_erase_of_mem himem]
        omega
      · intro x hx c hc
        have hxrem := List.mem_of_mem_erase hx
        rcases hcl x hxrem c hc with h | h
        · exact Or.inl (List.mem_append_left _ h)
        · by_cases hci : c = i
          · exact Or.inl (List.mem_append_right _ (by simp [hci]))
          · exact Or.inr ((List.mem_erase_of_ne hci).mpr h)
      · exact hnc

theorem sort_spec (childLists : List (List Nat)) (out : List Nat)
    (h : sort childLists = some out) :
    out.Perm (List.range childLists.length) ∧
    SortedAfterChildren (fun i => childLists.getD i []) out := by
  obtain ⟨ext, hout, hperm⟩ := sortLoop_shape _ _ _ _ _ h
  have hout' : out = ext := by simpa using hout
  subst hout'
  refine ⟨hperm, ?_⟩
  apply sortLoop_sorted _ _ _ _ _ h
  intro k hk
  simp at hk

theorem sort_isSome (childLists : List (List Nat))
    (hsub : ∀ b, ∀ a ∈ childLists.getD b [], a < childLists.length)
    (hnc : ¬ HasCycle (fun i => childLists.getD i [])) :
    (sort childLists).isSome := by
  unfold sort
  apply sortLoop_isSome
  · rw [List.length_range]
  · intro x _ c hc
    exact Or.inr (List.mem_range.mpr (hsub x c hc))
  · exact hnc

theorem pos_lt_of_child {children : Nat → List Nat} {out : List Nat}
    (hs : SortedAfterChildren children out)
    {a b : Nat} (hab : a ∈ children b) {kb : Fin out.length}
    (hb : out.get kb = b) :
    ∃ ka : Fin out.length, out.get ka = a ∧ ka.val < kb.val := by
  have hmem : a ∈ out.take kb.val := by
    apply hs kb.val kb.isLt
    rw [show out.get ⟨kb.val, kb.isLt⟩ = b from hb]
    exact hab
  rw [List.mem_iff_getElem] at hmem
  obtain ⟨j, hj, hja⟩ := hmem
  have hjk : j < kb.val := by
    have := hj
    simp [List.length_take] at this
    omega
  have hjlen : j < out.length := lt_trans hjk kb.isLt
  refine ⟨⟨j, hjlen⟩, ?_, hjk⟩
  have := List.getElem_take out (j := kb.val) (h := hj)
  rw [this] at hja
  exact hja

theorem transGen_pos {children : Nat → List Nat} {out : List Nat}
    (hs : SortedAfterChildren children out) (hnd : out.Nodup) :
    ∀ {x y}, Relation.TransGen (childRel children) x y →
      ∀ ky : Fin out.length, out.get ky = y →
        ∃ kx : Fin out.length, out.get kx = x ∧ kx.val < ky.val := by
  intro x y h
  induction h with
  | single hxy =>
    intro ky hky
    exact pos_lt_of_child hs hxy hky
  | tail _ hzy ih =>
    intro ky hky
    obtain ⟨kz, hkz, hlt⟩ := pos_lt_of_child hs hzy hky
    obtain ⟨kx, hkx, hlt2⟩ := ih kz hkz
    exact ⟨kx, hkx, lt_trans hlt2 hlt⟩

theorem sort_no_cycle (childLists : List (List Nat)) (out : List Nat)
    (hsub : ∀ b, ∀ a ∈ childLists.getD b [], a < childLists.length)
    (h : sort childLists = some out) :
    ¬ HasCycle (fun i => childLists.getD i []) := by
  rintro ⟨x, hx⟩
  obtain ⟨hperm, hs⟩ := sort_spec _ _ h
  have hnd : out.Nodup := hperm.nodup_iff.mpr (List.nodup_range _)
  have hx_out : x ∈ out := by
    obtain ⟨c, hstep, -⟩ := Relation.TransGen.head'_iff.mp hx
    exact hperm.mem_iff.mpr (List.mem_range.mpr (hsub _ x hstep))
  obtain ⟨kx, hkx⟩ := List.mem_iff_get.mp hx_out
  obtain ⟨kx', hkx', hlt⟩ := transGen_pos hs hnd hx kx hkx
  have heq : kx' = kx := by
    apply List.nodup_iff_injective_get.mp hnd
    rw [hkx', hkx]
  rw [heq] at hlt
  omega

end TopologicalSorter

/-!
## Verification of the type ordering pass -/

/-- The children function the sorter receives from `SortTypesByDependencies`:
`typeChildIndices` below the list length, nothing above it. -/
def typeChildFun (ts : List ReflectedType) (i : Nat) : List Nat :=
  ((List.range ts.length).map (typeChildIndices ts)).getD i []

/-- A cycle in the parent graph `SortTypesByDependencies` builds for a type
list. -/
def HasParentCycle (ts : List ReflectedType) : Prop :=
  TopologicalSorter.HasCycle (typeChildFun ts)

/-- The output of a successful pass puts every type strictly after each type
whose identity matches its parent identity. -/
def ParentBeforeChild (l : List ReflectedType) : Prop :=
  ∀ a b (ha : a < l.length) (hb : b < l.length), a ≠ b →
    (l.get ⟨b, hb⟩).m_ID = (l.get ⟨a, ha⟩).m_parentID → b < a

theorem typeChildFun_eval (ts : List ReflectedType) (i : Nat) :
    typeChildFun ts i = if i < ts.length then typeChildIndices ts i else [] := by
  unfold typeChildFun
  by_cases h : i < ts.length
  · rw [if_pos h]
    rw [List.getD_eq_getElem _ _ (by simpa using h)]
    simp
  · rw [if_neg h]
    unfold List.getD
    rw [List.get?_eq_none.mpr (by simpa using Nat.le_of_not_lt h)]
    rfl

theorem typeChildFun_sub (ts : List ReflectedType) :
    ∀ b, ∀ a ∈ typeChildFun ts b, a < ts.length := by
  intro b a ha
  rw [typeChildFun_eval] at ha
  split at ha
  · exact List.mem_range.mp (List.mem_filter.mp ha).1
  · cases ha

theorem typeChildFun_getD (ts : List ReflectedType) :
    (fun i => ((List.range ts.length).map (typeChildIndices ts)).getD i []) =
      typeChildFun ts := rfl

/-- The range-index map recovers the original list. -/
theorem map_getD_range (ts : List ReflectedType) :
    (List.range ts.length).map (fun i => ts.getD i default) = ts := by
  apply List.ext_getElem
  · simp
  · intro i h1 h2
    simp only [List.getElem_map, List.getElem_range]
    exact (List.getD_eq_getElem ts default (by simpa using h2)).symm ▸ rfl

/-- Short lists give the sorter no edges at all. -/
theorem no_edge_of_short (ts : List ReflectedType) (hlen : ts.length ≤ 1) :
    ∀ a b, ¬ TopologicalSorter.childRel (typeChildFun ts) a b := by
  intro a b hab
  have hb : b < ts.length := by
    rw [TopologicalSorter.childRel, typeChildFun_eval] at hab
    split at hab
    · next h => exact h
    · cases hab
  rw [TopologicalSorter.childRel, typeChildFun_eval, if_pos hb] at hab
  have hmem := List.mem_filter.mp hab
  have ha : a < ts.length := List.mem_range.mp hmem.1
  have hne : b ≠ a := by
    have := hmem.2
    simp only [bne_iff_ne, Bool.and_eq_true, decide_eq_true_eq] at this
    exact fun h => (by simpa [h] using this.1)
  omega

theorem hasParentCycle_length (ts : List ReflectedType) (hc : HasParentCycle ts) :
    2 ≤ ts.length := by
  by_contra h
  have hlen : ts.length ≤ 1 := by omega
  obtain ⟨x, hx⟩ := hc
  obtain ⟨c, hstep, -⟩ := Relation.TransGen.head'_iff.mp hx
  exact no_edge_of_short ts hlen x c hstep

/-- Successful runs of the type ordering pass: the flag is `true`, the output
is a permutation of the input, and every type comes after its parent. -/
theorem sortTypes_of_no_cycle (ts : List ReflectedType)
    (hnc : ¬ HasParentCycle ts) :
    (SortTypesByDependencies ts).1 = true ∧
    (SortTypesByDependencies ts).2.Perm ts ∧
    ParentBeforeChild (SortTypesByDependencies ts).2 := by
  by_cases hlen : ts.length ≤ 1
  · rw [SortTypesByDependencies, if_pos hlen]
    refine ⟨rfl, List.Perm.refl ts, ?_⟩
    intro a b ha hb hne _
    simp only at ha hb
    omega
  · have hsome :
        (TopologicalSorter.sort
          ((List.range ts.length).map (typeChildIndices ts))).isSome := by
      apply TopologicalSorter.sort_isSome
      · intro b a ha
        have := typeChildFun_sub ts b a ha
        simpa using this
      · rw [typeChildFun_getD]
        exact hnc
    obtain ⟨out, hout⟩ := Option.isSome_iff_exists.mp hsome
    obtain ⟨hperm0, hsorted0⟩ := TopologicalSorter.sort_spec _ _ hout
    have hperm : out.Perm (List.range ts.length) := by simpa using hperm0
    have hsorted : TopologicalSorter.SortedAfterChildren (typeChildFun ts) out := by
      rw [← typeChildFun_getD]
      exact hsorted0
    have hnd : out.Nodup := hperm.nodup_iff.mpr (List.nodup_range _)
    have hred : SortTypesByDependencies ts =
        (true, out.map (fun i => ts.getD i default)) := by
      unfold SortTypesByDependencies
      rw [if_neg hlen, hout]
    rw [hred]
    refine ⟨rfl, ?_, ?_⟩
    · have h1 : (out.map (fun i => ts.getD i default)).Perm
          ((List.range ts.length).map (fun i => ts.getD i default)) := hperm.map _
      rw [map_getD_range] at h1
      exact h1
    · intro a b ha hb hne hid
      simp only [List.length_map] at ha hb
      set i := out.get ⟨a, ha⟩ with hi
      set j := out.get ⟨b, hb⟩ with hj
      have hiv : i ∈ out := List.get_mem out a ha
      have hjv : j ∈ out := List.get_mem out b hb
      have hilt : i < ts.length := by
        simpa using List.mem_range.mp (hperm.mem_iff.mp hiv)
      have hjlt : j < ts.length := by
        simpa using List.mem_range.mp (hperm.mem_iff.mp hjv)
      have hij : i ≠ j := by
        intro h
        rw [hi, hj] at h
        have hfin := List.nodup_iff_injective_get.mp hnd h
        exact hne (by simpa using congrArg Fin.val hfin)
      have hida : ((out.map (fun k => ts.getD k default)).get
          ⟨a, by simpa using ha⟩) = ts.getD i default := by
        simp [hi]
      have hidb : ((out.map (fun k => ts.getD k default)).get
          ⟨b, by simpa using hb⟩) = ts.getD j default := by
        simp [hj]
      rw [hida, hidb] at hid
      have hjchild : j ∈ typeChildIndices ts i := by
        apply List.mem_filter.mpr
        refine ⟨List.mem_range.mpr hjlt, ?_⟩
        simp only [Bool.and_eq_true, bne_iff_ne, beq_iff_eq, decide_eq_true_eq]
        exact ⟨hij, hid⟩
      have hjfun : j ∈ typeChildFun ts i := by
        rw [typeChildFun_eval, if_pos hilt]
        exact hjchild
      have htake : j ∈ out.take a := hsorted a ha j hjfun
      rw [List.mem_iff_getElem] at htake
      obtain ⟨b2, hb2len, hb2⟩ := htake
      have hb2lt : b2 < a := by
        have := hb2len
        simp [List.length_take] at this
        omega
      have hb2out : b2 < out.length := lt_trans hb2lt ha
      have hb2get : out.get ⟨b2, hb2out⟩ = j := by
        have hg := List.getElem_take out (j := a) (h := hb2len)
        rw [hg] at hb2
        exact hb2
      have hfin := List.nodup_iff_injective_get.mp hnd (hb2get.trans hj)
      have hbeq : b2 = b := by simpa using congrArg Fin.val hfin
      omega

/-- A cycle makes `SortTypesByDependencies` fail and leave its input
untouched. -/
theorem sortTypes_of_cycle (ts : List ReflectedType) (hc : HasParentCycle ts) :
    SortTypesByDependencies ts = (false, ts) := by
  have hlen := hasParentCycle_length ts hc
  have hlen' : ¬ ts.length ≤ 1 := by omega
  rw [SortTypesByDependencies, if_neg hlen']
  cases hout : TopologicalSorter.sort
      ((List.range ts.length).map (typeChildIndices ts)) with
  | none => rfl
  | some out =>
    exfalso
    apply TopologicalSorter.sort_no_cycle _ _ _ hout
    · rw [typeChildFun_getD]
      exact hc
    · intro b a ha
      have := typeChildFun_sub ts b a ha
      simpa using this

/-- A ranking that strictly decreases along child edges rules out parent
cycles. -/
theorem noParentCycle_of_rank (ts : List ReflectedType) (rank : Nat → Nat)
    (h : ∀ a < ts.length, ∀ b < ts.length,
      a ∈ typeChildIndices ts b → rank a < rank b) :
    ¬ HasParentCycle ts := by
  rintro ⟨x, hx⟩
  have hstep : ∀ p q, TopologicalSorter.childRel (typeChildFun ts) p q →
      rank p < rank q := by
    intro p q hpq
    have hq : q < ts.length := by
      rw [TopologicalSorter.childRel, typeChildFun_eval] at hpq
      split at hpq
      · next hq => exact hq
      · cases hpq
    have hp : p < ts.length := typeChildFun_sub ts q p hpq
    rw [TopologicalSorter.childRel, typeChildFun_eval, if_pos hq] at hpq
    exact h p hp q hq hpq
  have hmono : ∀ p q,
      Relation.TransGen (TopologicalSorter.childRel (typeChildFun ts)) p q →
      rank p < rank q := by
    intro p q hpq
    induction hpq with
    | single h1 => exact hstep _ _ h1
    | tail _ h2 ih => exact lt_trans ih (hstep _ _ h2)
  exact absurd (hmono x x hx) (lt_irrefl _)

/-!
## Concrete scenarios -/

/-- Scenario A, root type `Base`. -/
def baseType : ReflectedType :=
  ⟨1, 0, 0, "", "Base", false, false, false, false, [], []⟩

/-- Scenario A, type `Mid` with parent `Base`. -/
def midType : ReflectedType :=
  ⟨2, 1, 0, "", "Mid", false, false, false, false, [], []⟩

/-- Scenario A, type `Leaf` with parent `Mid`. -/
def leafType : ReflectedType :=
  ⟨3, 2, 0, "", "Leaf", false, false, false, false, [], []⟩

/-- Scenario B, type `A` with parent `B`. -/
def cycTypeA : ReflectedType :=
  ⟨1, 2, 21, "", "A", false, false, false, false, [], []⟩

/-- Scenario B, type `B` with parent `A`. -/
def cycTypeB : ReflectedType :=
  ⟨2, 1, 21, "", "B", false, false, false, false, [], []⟩

/-- Scenario B, the module header of the cyclic project. -/
def cycModuleHeader : ReflectedHeader := ⟨20, "CycModule.h", "CycModule_TypeInfo.h"⟩

/-- Scenario B, the header holding the two mutually derived types. -/
def cycHeader : ReflectedHeader := ⟨21, "Cyc.h", "Cyc_TypeInfo.h"⟩

/-- Scenario B, the project holding the two mutually derived types. -/
def cycProject : ReflectedProject :=
  ⟨7, "CycProject", "EE::CycModule", 0, false, 20, [cycModuleHeader, cycHeader]⟩

/-- Scenario B, the database holding the cyclic project. -/
def cycDb : ReflectionDatabase := ⟨[cycProject], [cycTypeA, cycTypeB], [], []⟩

theorem cyc_types_eval :
    cycDb.GetAllTypesForProject cycProject.m_ID = [cycTypeA, cycTypeB] := by decide

theorem cyc_hasParentCycle :
    HasParentCycle (cycDb.GetAllTypesForProject cycProject.m_ID) := by
  rw [cyc_types_eval]
  have h01 : TopologicalSorter.childRel (typeChildFun [cycTypeA, cycTypeB]) 0 1 :=
    (by decide : (0 : Nat) ∈ typeChildFun [cycTypeA, cycTypeB] 1)
  have h10 : TopologicalSorter.childRel (typeChildFun [cycTypeA, cycTypeB]) 1 0 :=
    (by decide : (1 : Nat) ∈ typeChildFun [cycTypeA, cycTypeB] 0)
  exact ⟨0, Relation.TransGen.tail (Relation.TransGen.single h01) h10⟩

/-!
## Claims C2, C3, C10 -/

/-- C2: for every type list whose parent graph is acyclic,
`SortTypesByDependencies` succeeds and returns a permutation of the input in
which every type appears after its parent whenever the parent is in the same
list; in particular, `[Base, Mid, Leaf]` (with `Mid` derived from `Base` and
`Leaf` from `Mid`) is ordered as `[Base, Mid, Leaf]`. -/
theorem c2_sort_acyclic_correct :
    (∀ ts : List ReflectedType, ¬ HasParentCycle ts →
      (SortTypesByDependencies ts).1 = true ∧
      (SortTypesByDependencies ts).2.Perm ts ∧
      ParentBeforeChild (SortTypesByDependencies ts).2) ∧
    SortTypesByDependencies [baseType, midType, leafType] =
      (true, [baseType, midType, leafType]) := by
  constructor
  · intro ts hnc
    exact sortTypes_of_no_cycle ts hnc
  · decide

/-- C2 witness: the acyclicity hypothesis discharged on scenario A. -/
theorem c2_sort_acyclic_correct_witness :
    (SortTypesByDependencies [baseType, midType, leafType]).1 = true ∧
    (SortTypesByDependencies [baseType, midType, leafType]).2.Perm
      [baseType, midType, leafType] ∧
    ParentBeforeChild (SortTypesByDependencies [baseType, midType, leafType]).2 :=
  c2_sort_acyclic_correct.1 [baseType, midType, leafType]
    (noParentCycle_of_rank _ (fun i => i) (by decide))

/-- C3: for every type list whose parent graph has a cycle, the ordering pass
reports failure and leaves the caller-visible list unchanged, and both project
file generators abort with the cyclic-dependency error naming the project. -/
theorem c3_cycle_aborts_project :
    (∀ ts : List ReflectedType, HasParentCycle ts →
      (SortTypesByDependencies ts).1 = false ∧
      (SortTypesByDependencies ts).2 = ts) ∧
    (∀ (db : ReflectionDatabase) (project : ReflectedProject),
      HasParentCycle (db.GetAllTypesForProject project.m_ID) →
      GenerateProjectTypeInfoHeaderFile db project =
        Except.error (cyclicDependencyMessage project) ∧
      GenerateProjectTypeInfoSourceFile db project =
        Except.error (cyclicDependencyMessage project)) := by
  constructor
  · intro ts hc
    rw [sortTypes_of_cycle ts hc]
    exact ⟨rfl, rfl⟩
  · intro db project hc
    constructor
    · rw [GenerateProjectTypeInfoHeaderFile, sortTypes_of_cycle _ hc]
    · rw [GenerateProjectTypeInfoSourceFile, sortTypes_of_cycle _ hc]

/-- C3 witness: the cycle hypothesis discharged on scenario B. -/
theorem c3_cycle_aborts_project_witness :
    GenerateProjectTypeInfoHeaderFile cycDb cycProject =
      Except.error (cyclicDependencyMessage cycProject) ∧
    GenerateProjectTypeInfoSourceFile cycDb cycProject =
      Except.error (cyclicDependencyMessage cycProject) :=
  c3_cycle_aborts_project.2 cycDb cycProject cyc_hasParentCycle

/-- A single type whose parent identity is its own identity. -/
def selfParentType : ReflectedType :=
  ⟨4, 4, 0, "", "SelfRef", false, false, false, false, [], []⟩

/-- C10: a parent cycle of length one is never detected — lists of at most one
type succeed unchanged through the early exit, and the edge construction never
links an index to itself, so a self-parenting type never produces a
cyclic-dependency failure by itself. -/
theorem c10_self_parent_no_cycle :
    (∀ ts : List ReflectedType, ts.length ≤ 1 →
      SortTypesByDependencies ts = (true, ts)) ∧
    (∀ (ts : List ReflectedType) (i : Nat), i ∉ typeChildIndices ts i) := by
  constructor
  · intro ts hlen
    rw [SortTypesByDependencies, if_pos hlen]
  · intro ts i hmem
    have := (List.mem_filter.mp hmem).2
    simp at this

/-- C10 witness: the early exit taken on a concrete self-parenting type. -/
theorem c10_self_parent_no_cycle_witness :
    SortTypesByDependencies [selfParentType] = (true, [selfParentType]) ∧
    0 ∉ typeChildIndices [selfParentType] 0 :=
  ⟨c10_self_parent_no_cycle.1 [selfParentType] (by decide),
   c10_self_parent_no_cycle.2 [selfParentType] 0⟩

/-!
## Claim C9 -/

/-- A non-enumeration type without a valid parent reference makes the per-type
emitter fail with the invalid-parent message. -/
theorem typeInfo_error_of_invalid_parent (db : ReflectionDatabase)
    (t : ReflectedType) (henum : t.IsEnum = false)
    (hpar : TypeID.IsValid t.m_parentID = false) :
    GenerateTypeInfoForType db t = Except.error (invalidParentMessage t) := by
  unfold GenerateTypeInfoForType
  simp [henum, hpar, Except.map]

/-- The per-header fold aborts with the error of the first failing type when
every earlier type succeeds. -/
theorem headerFold_first_error (db : ReflectionDatabase) :
    ∀ (pre : List ReflectedType) (acc : List HeaderFileItem)
      (t : ReflectedType) (post : List ReflectedType) (e : String),
      (∀ t2 ∈ pre, ∃ items, GenerateTypeInfoForType db t2 = Except.ok items) →
      GenerateTypeInfoForType db t = Except.error e →
      (pre ++ t :: post).foldlM
        (fun acc t2 => (GenerateTypeInfoForType db t2).map (fun items => acc ++ items))
        acc = Except.error e := by
  intro pre
  induction pre with
  | nil =>
    intro acc t post e _ herr
    simp only [List.nil_append, List.foldlM_cons, herr, Except.map]
    rfl
  | cons p pre ih =>
    intro acc t post e hok herr
    obtain ⟨items, hp⟩ := hok p (List.mem_cons_self p pre)
    have hrest : ∀ t2 ∈ pre, ∃ items2, GenerateTypeInfoForType db t2 = Except.ok items2 :=
      fun t2 h2 => hok t2 (List.mem_cons_of_mem p h2)
    simp only [List.cons_append, List.foldlM_cons, hp, Except.map]
    exact ih _ t post e hrest herr

/-- The per-header fold cannot succeed while the list holds a failing type. -/
theorem headerFold_error_of_bad (db : ReflectionDatabase) :
    ∀ (types : List ReflectedType) (acc : List HeaderFileItem),
      (∃ t ∈ types, t.IsEnum = false ∧ TypeID.IsValid t.m_parentID = false) →
      ∃ e, types.foldlM
        (fun acc t2 => (GenerateTypeInfoForType db t2).map (fun items => acc ++ items))
        acc = Except.error e := by
  intro types
  induction types with
  | nil =>
    intro acc hbad
    obtain ⟨t, ht, -⟩ := hbad
    cases ht
  | cons p rest ih =>
    intro acc hbad
    cases hp : GenerateTypeInfoForType db p with
    | error e =>
      refine ⟨e, ?_⟩
      simp only [List.foldlM_cons, hp, Except.map]
      rfl
    | ok items =>
      obtain ⟨t, ht, henum, hpar⟩ := hbad
      rcases List.mem_cons.mp ht with rfl | htr
      · rw [typeInfo_error_of_invalid_parent db t henum hpar] at hp
        cases hp
      · obtain ⟨e, he⟩ := ih (acc ++ items) ⟨t, htr, henum, hpar⟩
        refine ⟨e, ?_⟩
        simp only [List.foldlM_cons, hp, Except.map]
        exact he

/-- C9: for every non-enumeration type whose parent reference is invalid,
per-header generation aborts: if such a type is the first failing type of the
header, the failure carries the Invalid Parent Hierarchy message naming it,
and whenever such a type is present at all no file is produced. -/
theorem c9_invalid_parent_aborts :
    (∀ (db : ReflectionDatabase) (header : ReflectedHeader)
      (pre post : List ReflectedType) (t : ReflectedType),
      (∀ t2 ∈ pre, ∃ items, GenerateTypeInfoForType db t2 = Except.ok items) →
      t.IsEnum = false →
      TypeID.IsValid t.m_parentID = false →
      GenerateTypeInfoFileForHeader db header (pre ++ t :: post) =
        Except.error (invalidParentMessage t)) ∧
    (∀ (db : ReflectionDatabase) (header : ReflectedHeader)
      (types : List ReflectedType),
      (∃ t ∈ types, t.IsEnum = false ∧ TypeID.IsValid t.m_parentID = false) →
      ∃ e, GenerateTypeInfoFileForHeader db header types = Except.error e) := by
  constructor
  · intro db header pre post t hok henum hpar
    unfold GenerateTypeInfoFileForHeader
    rw [headerFold_first_error db pre [] t post (invalidParentMessage t) hok
      (typeInfo_error_of_invalid_parent db t henum hpar)]
    rfl
  · intro db header types hbad
    obtain ⟨e, he⟩ := headerFold_error_of_bad db types [] hbad
    refine ⟨e, ?_⟩
    unfold GenerateTypeInfoFileForHeader
    rw [he]
    rfl

/-- A concrete non-enumeration type with no parent reference. -/
def orphanType : ReflectedType :=
  ⟨9, 0, 30, "EE::", "Orphan", false, false, false, false, [], []⟩

/-- The header holding the orphan type. -/
def orphanHeader : ReflectedHeader := ⟨30, "Orphan.h", "Orphan_TypeInfo.h"⟩

/-- The database holding the orphan type. -/
def orphanDb : ReflectionDatabase := ⟨[], [orphanType], [], []⟩

/-- C9 witness: both hypotheses discharged on the orphan type. -/
theorem c9_invalid_parent_aborts_witness :
    GenerateTypeInfoFileForHeader orphanDb orphanHeader [orphanType] =
      Except.error (invalidParentMessage orphanType) :=
  c9_invalid_parent_aborts.1 orphanDb orphanHeader [] [] orphanType
    (fun t2 h2 => absurd h2 (List.not_mem_nil t2)) (by decide) (by decide)

/-!
## Claim C5 -/

instance : Inhabited ConstantInfo := ⟨⟨"", 0, 0, ""⟩⟩

theorem getD_set_ne' {l : List Nat} {i j : Nat} (h : i ≠ j) {a d : Nat} :
    (l.set i a).getD j d = l.getD j d := by
  simp [List.getD, List.get?_eq_getElem?, List.getElem?_set_ne h]

theorem getD_set_self' {l : List Nat} {i : Nat} (h : i < l.length) {a d : Nat} :
    (l.set i a).getD i d = a := by
  simp [List.getD, List.get?_eq_getElem?, List.getElem?_set_self h]

/-- The inversion fold leaves slots it never writes untouched. -/
theorem setFold_getD_not_mem :
    ∀ (xs : List Nat) (s : Nat) (acc : List Nat) (j : Nat), j ∉ xs →
      ((xs.enumFrom s).foldl (fun a p => a.set p.2 p.1) acc).getD j 0 =
        acc.getD j 0 := by
  intro xs
  induction xs with
  | nil => intro s acc j _; rfl
  | cons x rest ih =>
    intro s acc j hj
    rw [List.enumFrom_cons, List.foldl_cons]
    have hjx : x ≠ j := fun h => hj (h ▸ List.mem_cons_self x rest)
    rw [ih (s + 1) (acc.set x s) j (fun h => hj (List.mem_cons_of_mem x h))]
    exact getD_set_ne' hjx

/-- The inversion fold writes position `xs[k]` with value `s + k`. -/
theorem setFold_getD :
    ∀ (xs : List Nat) (s : Nat) (acc : List Nat), xs.Nodup →
      (∀ x ∈ xs, x < acc.length) →
      ∀ k, k < xs.length →
        ((xs.enumFrom s).foldl (fun a p => a.set p.2 p.1) acc).getD
          (xs.getD k 0) 0 = s + k := by
  intro xs
  induction xs with
  | nil => intro s acc _ _ k hk; simp at hk
  | cons x rest ih =>
    intro s acc hnd hbound k hk
    rw [List.enumFrom_cons, List.foldl_cons]
    cases k with
    | zero =>
      rw [List.getD_cons_zero]
      have hx : x ∉ rest := (List.nodup_cons.mp hnd).1
      rw [setFold_getD_not_mem rest (s + 1) _ x hx]
      rw [getD_set_self' (hbound x (List.mem_cons_self x rest))]
      simp
    | succ k2 =>
      rw [List.getD_cons_succ]
      have harith : s + (k2 + 1) = (s + 1) + k2 := by omega
      rw [harith]
      apply ih (s + 1) (acc.set x s) (List.nodup_cons.mp hnd).2
      · intro y hy
        rw [List.length_set]
        exact hbound y (List.mem_cons_of_mem x hy)
      · simpa using hk

theorem enumSortingConstantIndices_perm (cs : List ReflectedEnumConstant) :
    (enumSortingConstantIndices cs).Perm (List.range cs.length) :=
  List.perm_insertionSort _ _

theorem enumSortingConstantIndices_nodup (cs : List ReflectedEnumConstant) :
    (enumSortingConstantIndices cs).Nodup :=
  (enumSortingConstantIndices_perm cs).nodup_iff.mpr (List.nodup_range _)

theorem enumSortingConstantIndices_lt (cs : List ReflectedEnumConstant) :
    ∀ x ∈ enumSortingConstantIndices cs, x < cs.length := by
  intro x hx
  exact List.mem_range.mp ((enumSortingConstantIndices_perm cs).mem_iff.mp hx)

theorem enumSortingConstantIndices_length (cs : List ReflectedEnumConstant) :
    (enumSortingConstantIndices cs).length = cs.length := by
  simpa using (enumSortingConstantIndices_perm cs).length_eq

/-- `sortedOrder` inverts `sortingConstantIndices`: the constant stored at
position `k` of the sorted index list is assigned alphabetical index `k`. -/
theorem enumSortedOrder_inverse (cs : List ReflectedEnumConstant) (k : Nat)
    (hk : k < (enumSortingConstantIndices cs).length) :
    (enumSortedOrder cs).getD ((enumSortingConstantIndices cs).getD k 0) 0 = k := by
  unfold enumSortedOrder
  rw [List.enum_eq_enumFrom]
  have := setFold_getD (enumSortingConstantIndices cs) 0
    (List.replicate cs.length 0)
    (enumSortingConstantIndices_nodup cs)
    (by
      intro x hx
      rw [List.length_replicate]
      exact enumSortingConstantIndices_lt cs x hx)
    k hk
  simpa using this

theorem charListLt_irrefl : ∀ l, charListLt l l = false := by
  intro l
  induction l with
  | nil => rfl
  | cons a as ih => simp [charListLt, ih]

theorem charListLt_asymm : ∀ x y, charListLt x y = true → charListLt y x = false := by
  intro x
  induction x with
  | nil =>
    intro y h
    cases y with
    | nil => simp [charListLt] at h
    | cons b bs => rfl
  | cons a as ih =>
    intro y h
    cases y with
    | nil => simp [charListLt] at h
    | cons b bs =>
      rw [charListLt] at h ⊢
      by_cases h1 : a.toNat < b.toNat
      · rw [if_neg (by omega), if_pos h1]
      · by_cases h2 : b.toNat < a.toNat
        · rw [if_neg h1, if_pos h2] at h
          cases h
        · rw [if_neg h1, if_neg h2] at h
          rw [if_neg h2, if_neg h1]
          exact ih bs h

theorem charListLt_trans :
    ∀ x y z, charListLt x y = true → charListLt y z = true →
      charListLt x z = true := by
  intro x
  induction x with
  | nil =>
    intro y z hxy hyz
    cases y with
    | nil => simp [charListLt] at hxy
    | cons b bs =>
      cases z with
      | nil => simp [charListLt] at hyz
      | cons c cs2 => rfl
  | cons a as ih =>
    intro y z hxy hyz
    cases y with
    | nil => simp [charListLt] at hxy
    | cons b bs =>
      cases z with
      | nil => simp [charListLt] at hyz
      | cons c cs2 =>
        rw [charListLt] at hxy hyz ⊢
        by_cases hab : a.toNat < b.toNat
        · by_cases hbc : b.toNat < c.toNat
          · rw [if_pos (show a.toNat < c.toNat by omega)]
          · rw [if_neg hbc] at hyz
            by_cases hcb : c.toNat < b.toNat
            · rw [if_pos hcb] at hyz
              cases hyz
            · rw [if_pos (show a.toNat < c.toNat by omega)]
        · rw [if_neg hab] at hxy
          by_cases hba : b.toNat < a.toNat
          · rw [if_pos hba] at hxy
            cases hxy
          · rw [if_neg hba] at hxy
            by_cases hbc : b.toNat < c.toNat
            · rw [if_pos (show a.toNat < c.toNat by omega)]
            · rw [if_neg hbc] at hyz
              by_cases hcb : c.toNat < b.toNat
              · rw [if_pos hcb] at hyz
                cases hyz
              · rw [if_neg hcb] at hyz
                rw [if_neg (show ¬ a.toNat < c.toNat by omega),
                  if_neg (show ¬ c.toNat < a.toNat by omega)]
                exact ih bs cs2 hxy hyz

theorem charListLt_eq_of_not :
    ∀ x y, charListLt x y = false → charListLt y x = false → x = y := by
  intro x
  induction x with
  | nil =>
    intro y hxy _
    cases y with
    | nil => rfl
    | cons b bs => simp [charListLt] at hxy
  | cons a as ih =>
    intro y hxy hyx
    cases y with
    | nil => simp [charListLt] at hyx
    | cons b bs =>
      rw [charListLt] at hxy hyx
      by_cases hab : a.toNat < b.toNat
      · rw [if_pos hab] at hxy
        cases hxy
      · by_cases hba : b.toNat < a.toNat
        · rw [if_pos hba] at hyx
          cases hyx
        · rw [if_neg hab, if_neg hba] at hxy
          rw [if_neg hba, if_neg hab] at hyx
          have hn : a.toNat = b.toNat := by omega
          have hchar : a = b := Char.ext (UInt32.toNat.inj hn)
          rw [hchar, ih bs hxy hyx]

theorem labelLt_irrefl (a : String) : labelLt a a = false :=
  charListLt_irrefl _

theorem labelLt_asymm {a b : String} (h : labelLt a b = true) :
    labelLt b a = false :=
  charListLt_asymm _ _ h

theorem labelLt_trans {a b c : String} (h1 : labelLt a b = true)
    (h2 : labelLt b c = true) : labelLt a c = true :=
  charListLt_trans _ _ _ h1 h2

theorem labelLt_eq_of_not {a b : String} (h1 : labelLt a b = false)
    (h2 : labelLt b a = false) : a = b :=
  String.toList_inj.mp (charListLt_eq_of_not _ _ h1 h2)

theorem enumSorting_pairwise (cs : List ReflectedEnumConstant) :
    (enumSortingConstantIndices cs).Pairwise
      (fun a b =>
        labelLt (cs.getD b default).m_label (cs.getD a default).m_label = false) := by
  haveI : IsTotal Nat
      (fun a b =>
        labelLt (cs.getD b default).m_label (cs.getD a default).m_label = false) := by
    constructor
    intro a b
    cases h : labelLt (cs.getD b default).m_label (cs.getD a default).m_label with
    | false => exact Or.inl rfl
    | true => exact Or.inr (labelLt_asymm h)
  haveI : IsTrans Nat
      (fun a b =>
        labelLt (cs.getD b default).m_label (cs.getD a default).m_label = false) := by
    constructor
    intro a b c hab hbc
    cases hca : labelLt (cs.getD c default).m_label (cs.getD a default).m_label with
    | false => rfl
    | true =>
      exfalso
      cases h2 : labelLt (cs.getD a default).m_label (cs.getD b default).m_label with
      | false =>
        have heq := labelLt_eq_of_not h2 hab
        rw [heq] at hca
        rw [hca] at hbc
        cases hbc
      | true =>
        have := labelLt_trans hca h2
        rw [this] at hbc
        cases hbc
  exact List.sorted_insertionSort _ _

/-- With pairwise-distinct labels, the constant at position `k` of the sorted
index list has exactly `k` labels strictly below it. -/
theorem enumSorting_rank (cs : List ReflectedEnumConstant)
    (hnodup : (cs.map (fun c => c.m_label)).Nodup) (k : Nat)
    (hk : k < (enumSortingConstantIndices cs).length) :
    ((List.range cs.length).filter
      (fun j => labelLt (cs.getD j default).m_label
        (cs.getD ((enumSortingConstantIndices cs).getD k 0) default).m_label)).length
      = k := by
  set sI := enumSortingConstantIndices cs with hsI
  set p := sI.getD k 0 with hp
  have hsIlen : sI.length = cs.length := enumSortingConstantIndices_length cs
  have hsInd : sI.Nodup := enumSortingConstantIndices_nodup cs
  have hsIlt : ∀ x ∈ sI, x < cs.length := enumSortingConstantIndices_lt cs
  have hpair := enumSorting_pairwise cs
  have hpairget := List.pairwise_iff_getElem.mp hpair
  have hpget : sI[k] = p := by
    rw [hp]
    exact (List.getD_eq_getElem sI 0 hk).symm
  have hlab : ∀ i j, i < cs.length → j < cs.length → i ≠ j →
      (cs.getD i default).m_label ≠ (cs.getD j default).m_label := by
    intro i j hi hj hij heq
    apply hij
    have hinj := List.nodup_iff_injective_get.mp hnodup
    have hmi : i < (cs.map (fun c => c.m_label)).length := by simpa using hi
    have hmj : j < (cs.map (fun c => c.m_label)).length := by simpa using hj
    have hgi : (cs.map (fun c => c.m_label)).get ⟨i, hmi⟩ =
        (cs.getD i default).m_label := by
      rw [List.getD_eq_getElem cs default hi]
      simp
    have hgj : (cs.map (fun c => c.m_label)).get ⟨j, hmj⟩ =
        (cs.getD j default).m_label := by
      rw [List.getD_eq_getElem cs default hj]
      simp
    have := hinj (hgi.trans (heq.trans hgj.symm))
    simpa using congrArg Fin.val this
  have hmemA : ∀ j, j ∈ (List.range cs.length).filter
      (fun j => labelLt (cs.getD j default).m_label (cs.getD p default).m_label) ↔
      j ∈ sI.take k := by
    intro j
    constructor
    · intro hj
      have hjlt : j < cs.length := List.mem_range.mp (List.mem_filter.mp hj).1
      have hjlab : labelLt (cs.getD j default).m_label
          (cs.getD p default).m_label = true := (List.mem_filter.mp hj).2
      have hjsI : j ∈ sI := (enumSortingConstantIndices_perm cs).mem_iff.mpr
        (List.mem_range.mpr hjlt)
      rw [List.mem_iff_getElem] at hjsI
      obtain ⟨m, hm, hmj⟩ := hjsI
      have hmk : m < k := by
        rcases Nat.lt_trichotomy m k with h | h | h
        · exact h
        · exfalso
          subst h
          have hj2 : j = p := Eq.trans hmj.symm hpget
          rw [hj2] at hjlab
          rw [labelLt_irrefl] at hjlab
          cases hjlab
        · exfalso
          have hpw := hpairget k m hk hm h
          rw [hpget, hmj] at hpw
          rw [hjlab] at hpw
          cases hpw
      rw [List.mem_iff_getElem]
      refine ⟨m, ?_, ?_⟩
      · simp [List.length_take]
        omega
      · rw [List.getElem_take]
        exact hmj
    · intro hj
      rw [List.mem_iff_getElem] at hj
      obtain ⟨m, hm, hmj⟩ := hj
      have hmk : m < k := by
        have := hm
        simp [List.length_take] at this
        omega
      have hmlen : m < sI.length := by omega
      rw [List.getElem_take] at hmj
      have hjlt : j < cs.length := hsIlt j (hmj ▸ List.getElem_mem hmlen)
      apply List.mem_filter.mpr
      refine ⟨List.mem_range.mpr hjlt, ?_⟩
      have hne : j ≠ p := by
        intro h
        have hfinj := List.nodup_iff_injective_get.mp hsInd
        have hget : sI.get ⟨m, hmlen⟩ = sI.get ⟨k, hk⟩ := by
          simp only [List.get_eq_getElem]
          rw [hmj, hpget, h]
        have : m = k := by simpa using congrArg Fin.val (hfinj hget)
        omega
      have hle : labelLt (cs.getD p default).m_label
          (cs.getD j default).m_label = false := by
        have hpw := hpairget m k hmlen hk hmk
        rw [hmj, hpget] at hpw
        exact hpw
      have hplt : p < cs.length := hsIlt p (hpget ▸ List.getElem_mem hk)
      cases hlt : labelLt (cs.getD j default).m_label (cs.getD p default).m_label with
      | true => rfl
      | false =>
        exact absurd (labelLt_eq_of_not hlt hle) (hlab j p hjlt hplt hne)
  have hAnodup : ((List.range cs.length).filter
      (fun j => labelLt (cs.getD j default).m_label
        (cs.getD p default).m_label)).Nodup :=
    (List.nodup_range _).filter _
  have hBnodup : (sI.take k).Nodup := hsInd.sublist (List.take_sublist k sI)
  have hperm := (List.perm_ext_iff_of_nodup hAnodup hBnodup).mpr hmemA
  have hlen := hperm.length_eq
  rw [hlen, List.length_take]
  omega

/-- The enumeration used in concrete scenario C: constants
`("Beta", 1)` then `("Alpha", 0)`. -/
def enumBetaAlpha : ReflectedType :=
  ⟨6, 0, 0, "", "ScenC", false, true, false, false, [],
    [⟨"Beta", 1, ""⟩, ⟨"Alpha", 0, ""⟩]⟩

theorem generateEnumConstantTable_eval (t : ReflectedType) :
    GenerateEnumConstantTable t =
      (t.m_enumConstants.enumFrom 0).map
        (fun q => (⟨q.2.m_label, q.2.m_value,
          (enumSortedOrder t.m_enumConstants).getD q.1 0,
          q.2.m_description⟩ : ConstantInfo)) := rfl

/-- C5: the emitted enum constant table retains declaration order while the
alphabetical-order index of each constant equals its rank under lexicographic
sorting of the labels; on `{("Beta",1), ("Alpha",0)}` the table order is
`[Beta, Alpha]` with indices `Beta → 1`, `Alpha → 0`. -/
theorem c5_enum_alphabetical_order :
    (∀ t : ReflectedType,
      (GenerateEnumConstantTable t).map (fun c => (c.m_ID, c.m_value)) =
        t.m_enumConstants.map (fun c => (c.m_label, c.m_value))) ∧
    (∀ t : ReflectedType,
      (t.m_enumConstants.map (fun c => c.m_label)).Nodup →
      ∀ p, p < t.m_enumConstants.length →
        ((GenerateEnumConstantTable t).getD p default).m_alphabeticalOrder =
          ((List.range t.m_enumConstants.length).filter
            (fun j => labelLt (t.m_enumConstants.getD j default).m_label
              (t.m_enumConstants.getD p default).m_label)).length) ∧
    GenerateEnumConstantTable enumBetaAlpha =
      [⟨"Beta", 1, 1, ""⟩, ⟨"Alpha", 0, 0, ""⟩] := by
  refine ⟨?_, ?_, by decide⟩
  · intro t
    rw [generateEnumConstantTable_eval, List.map_map]
    have h2 : t.m_enumConstants.map (fun c => (c.m_label, c.m_value)) =
        (t.m_enumConstants.enumFrom 0).map
          ((fun c => (c.m_label, c.m_value)) ∘ Prod.snd) := by
      rw [← List.map_map, List.enumFrom_map_snd]
    rw [h2]
    rfl
  · intro t hnodup p hp
    set cs := t.m_enumConstants with hcs
    have htblget : ((GenerateEnumConstantTable t).getD p default).m_alphabeticalOrder =
        (enumSortedOrder cs).getD p 0 := by
      rw [generateEnumConstantTable_eval]
      have hlen : p < ((cs.enumFrom 0).map
          (fun q => (⟨q.2.m_label, q.2.m_value,
            (enumSortedOrder cs).getD q.1 0, q.2.m_description⟩ : ConstantInfo))).length := by
        simpa [List.enumFrom_length] using hp
      rw [List.getD_eq_getElem _ _ hlen]
      rw [List.getElem_map, List.getElem_enumFrom]
      simp
    rw [htblget]
    have hpmem : p ∈ enumSortingConstantIndices cs :=
      (enumSortingConstantIndices_perm cs).mem_iff.mpr (List.mem_range.mpr hp)
    rw [List.mem_iff_getElem] at hpmem
    obtain ⟨k, hk, hkp⟩ := hpmem
    have hkp2 : (enumSortingConstantIndices cs).getD k 0 = p := by
      rw [List.getD_eq_getElem _ _ hk]
      exact hkp
    rw [← hkp2]
    rw [enumSortedOrder_inverse cs k hk]
    exact (enumSorting_rank cs hnodup k hk).symm

/-- C5 witness: the distinct-labels hypothesis discharged on scenario C. -/
theorem c5_enum_alphabetical_order_witness :
    ((GenerateEnumConstantTable enumBetaAlpha).getD 0 default).m_alphabeticalOrder =
      ((List.range enumBetaAlpha.m_enumConstants.length).filter
        (fun j => labelLt (enumBetaAlpha.m_enumConstants.getD j default).m_label
          (enumBetaAlpha.m_enumConstants.getD 0 default).m_label)).length :=
  c5_enum_alphabetical_order.2.1 enumBetaAlpha (by decide) 0 (by decide)

/-!
## Claim C4 -/

/-- A still-loading element makes the emitted resource-array loop return
`Loading` immediately. -/
theorem runResourceArrayLoop_loading :
    ∀ (obs : List ResourceObservation) (status : LoadingStatus),
      (∃ o ∈ obs, o = ResourceObservation.stillLoading) →
      runResourceArrayLoop obs status = Except.error LoadingStatus.Loading := by
  intro obs
  induction obs with
  | nil =>
    intro status h
    obtain ⟨o, ho, -⟩ := h
    cases ho
  | cons o rest ih =>
    intro status h
    cases o with
    | failed =>
      obtain ⟨o2, ho2, h2⟩ := h
      rcases List.mem_cons.mp ho2 with rfl | hr
      · cases h2
      · exact ih LoadingStatus.Failed ⟨o2, hr, h2⟩
    | stillLoading => rfl
    | fine =>
      obtain ⟨o2, ho2, h2⟩ := h
      rcases List.mem_cons.mp ho2 with rfl | hr
      · cases h2
      · exact ih status ⟨o2, hr, h2⟩

/-- Without still-loading elements the emitted resource-array loop completes
and computes the failure-absorbing fold. -/
theorem runResourceArrayLoop_fold :
    ∀ (obs : List ResourceObservation) (status : LoadingStatus),
      (∀ o ∈ obs, o ≠ ResourceObservation.stillLoading) →
      runResourceArrayLoop obs status = Except.ok
        (obs.foldl
          (fun st o =>
            if o == ResourceObservation.failed then LoadingStatus.Failed else st)
          status) := by
  intro obs
  induction obs with
  | nil => intro status _; rfl
  | cons o rest ih =>
    intro status h
    cases o with
    | failed =>
      simp only [runResourceArrayLoop, List.foldl_cons]
      exact ih _ (fun o2 h2 => h o2 (List.mem_cons_of_mem _ h2))
    | stillLoading =>
      exact absurd rfl (h _ (List.mem_cons_self _ _))
    | fine =>
      simp only [runResourceArrayLoop, List.foldl_cons]
      exact ih _ (fun o2 h2 => h o2 (List.mem_cons_of_mem _ h2))

/-- A loading element makes the emitted nested-structure array loop return
`Loading` immediately. -/
theorem runStructureArrayLoop_loading :
    ∀ (sts : List LoadingStatus) (status : LoadingStatus),
      (∃ s ∈ sts, s = LoadingStatus.Loading) →
      runStructureArrayLoop sts status = Except.error LoadingStatus.Loading := by
  intro sts
  induction sts with
  | nil =>
    intro status h
    obtain ⟨s, hs, -⟩ := h
    cases hs
  | cons s rest ih =>
    intro status h
    by_cases hl : s = LoadingStatus.Loading
    · simp [runStructureArrayLoop, hl]
    · obtain ⟨s2, hs2, h2⟩ := h
      rcases List.mem_cons.mp hs2 with rfl | hr
      · exact absurd h2 hl
      · simp only [runStructureArrayLoop, if_neg hl]
        exact ih s ⟨s2, hr, h2⟩

/-- Without loading elements the emitted nested-structure array loop completes
with the last element's status. -/
theorem runStructureArrayLoop_fold :
    ∀ (sts : List LoadingStatus) (status : LoadingStatus),
      (∀ s ∈ sts, s ≠ LoadingStatus.Loading) →
      runStructureArrayLoop sts status =
        Except.ok (sts.foldl (fun _ s => s) status) := by
  intro sts
  induction sts with
  | nil => intro status _; rfl
  | cons s rest ih =>
    intro status h
    have hl : s ≠ LoadingStatus.Loading := h s (List.mem_cons_self _ _)
    simp only [runStructureArrayLoop, if_neg hl, List.foldl_cons]
    exact ih s (fun s2 h2 => h s2 (List.mem_cons_of_mem _ h2))

/-- A still-loading observation anywhere in the body forces the early-returned
`Loading` result. -/
theorem runLoadingChecks_loading (env : LoadingEnv) :
    ∀ (stmts : List LoadingStmt) (status : LoadingStatus),
      (∃ stmt ∈ stmts, stmt.ObservesLoading env = true) →
      runLoadingChecks env stmts status = LoadingStatus.Loading := by
  intro stmts
  induction stmts with
  | nil =>
    intro status h
    obtain ⟨stmt, hs, -⟩ := h
    cases hs
  | cons stmt rest ih =>
    intro status h
    obtain ⟨s2, hs2, h2⟩ := h
    rcases List.mem_cons.mp hs2 with rfl | hr
    · cases s2 with
      | checkResource name idx g =>
        have : env.resourceObs name idx = ResourceObservation.stillLoading := by
          simpa [LoadingStmt.ObservesLoading] using h2
        simp [runLoadingChecks, this]
      | checkResourceDynArray name g =>
        have : ∃ o ∈ env.resourceArrayObs name,
            o = ResourceObservation.stillLoading := by
          simpa [LoadingStmt.ObservesLoading] using h2
        simp [runLoadingChecks, runResourceArrayLoop_loading _ _ this]
      | checkStructure name idx g =>
        have : env.nestedStatus name idx = LoadingStatus.Loading := by
          simpa [LoadingStmt.ObservesLoading] using h2
        simp [runLoadingChecks, this]
      | checkStructureDynArray name g =>
        have : ∃ s ∈ env.nestedArrayStatus name, s = LoadingStatus.Loading := by
          simpa [LoadingStmt.ObservesLoading] using h2
        simp [runLoadingChecks, runStructureArrayLoop_loading _ _ this]
    · cases stmt with
      | checkResource name idx g =>
        cases hobs : env.resourceObs name idx with
        | failed => simp [runLoadingChecks, hobs, ih _ ⟨s2, hr, h2⟩]
        | stillLoading => simp [runLoadingChecks, hobs]
        | fine => simp [runLoadingChecks, hobs, ih _ ⟨s2, hr, h2⟩]
      | checkResourceDynArray name g =>
        cases hloop : runResourceArrayLoop (env.resourceArrayObs name) status with
        | ok st2 => simp [runLoadingChecks, hloop, ih _ ⟨s2, hr, h2⟩]
        | error r =>
          have : r = LoadingStatus.Loading := by
            revert hloop
            generalize env.resourceArrayObs name = obs
            generalize status = st
            induction obs generalizing st with
            | nil => intro h3; cases h3
            | cons o rest2 ih2 =>
              intro h3
              cases o with
              | failed => exact ih2 _ h3
              | stillLoading =>
                simp only [runResourceArrayLoop] at h3
                cases h3
                rfl
              | fine => exact ih2 _ h3
          simp [runLoadingChecks, hloop, this]
      | checkStructure name idx g =>
        by_cases hn : env.nestedStatus name idx = LoadingStatus.Loading
        · simp [runLoadingChecks, hn]
        · simp [runLoadingChecks, hn, ih _ ⟨s2, hr, h2⟩]
      | checkStructureDynArray name g =>
        cases hloop : runStructureArrayLoop (env.nestedArrayStatus name) status with
        | ok st2 => simp [runLoadingChecks, hloop, ih _ ⟨s2, hr, h2⟩]
        | error r =>
          have : r = LoadingStatus.Loading := by
            revert hloop
            generalize env.nestedArrayStatus name = sts
            generalize status = st
            induction sts generalizing st with
            | nil => intro h3; cases h3
            | cons s0 rest2 ih2 =>
              intro h3
              by_cases hl : s0 = LoadingStatus.Loading
              · simp only [runStructureArrayLoop, if_pos hl] at h3
                cases h3
                rfl
              · simp only [runStructureArrayLoop, if_neg hl] at h3
                exact ih2 _ h3
          simp [runLoadingChecks, hloop, this]

/-- Without still-loading observations the body computes the plain left fold
in which nested-structure checks overwrite the running status. -/
theorem runLoadingChecks_fold (env : LoadingEnv) :
    ∀ (stmts : List LoadingStmt) (status : LoadingStatus),
      (∀ stmt ∈ stmts, stmt.ObservesLoading env = false) →
      runLoadingChecks env stmts status =
        stmts.foldl (loadingFoldStep env) status := by
  intro stmts
  induction stmts with
  | nil => intro status _; rfl
  | cons stmt rest ih =>
    intro status h
    have hhead : stmt.ObservesLoading env = false := h stmt (List.mem_cons_self _ _)
    have hrest : ∀ s2 ∈ rest, s2.ObservesLoading env = false :=
      fun s2 h2 => h s2 (List.mem_cons_of_mem _ h2)
    cases stmt with
    | checkResource name idx g =>
      cases hobs : env.resourceObs name idx with
      | failed =>
        simp [runLoadingChecks, hobs, ih _ hrest, loadingFoldStep]
      | stillLoading =>
        rw [LoadingStmt.ObservesLoading, hobs] at hhead
        cases hhead
      | fine =>
        simp [runLoadingChecks, hobs, ih _ hrest, loadingFoldStep]
    | checkResourceDynArray name g =>
      have hnol : ∀ o ∈ env.resourceArrayObs name,
          o ≠ ResourceObservation.stillLoading := by
        intro o ho heq
        rw [LoadingStmt.ObservesLoading] at hhead
        have : (env.resourceArrayObs name).any
            (fun o => o == ResourceObservation.stillLoading) = true :=
          List.any_eq_true.mpr ⟨o, ho, by simp [heq]⟩
        rw [this] at hhead
        cases hhead
      simp [runLoadingChecks, runResourceArrayLoop_fold _ _ hnol, ih _ hrest,
        loadingFoldStep]
    | checkStructure name idx g =>
      have hn : env.nestedStatus name idx ≠ LoadingStatus.Loading := by
        intro heq
        rw [LoadingStmt.ObservesLoading, heq] at hhead
        simp at hhead
      simp [runLoadingChecks, hn, ih _ hrest, loadingFoldStep]
    | checkStructureDynArray name g =>
      have hnol : ∀ s ∈ env.nestedArrayStatus name, s ≠ LoadingStatus.Loading := by
        intro s hs heq
        rw [LoadingStmt.ObservesLoading] at hhead
        have : (env.nestedArrayStatus name).any
            (fun s => s == LoadingStatus.Loading) = true :=
          List.any_eq_true.mpr ⟨s, hs, by simp [heq]⟩
        rw [this] at hhead
        cases hhead
      simp [runLoadingChecks, runStructureArrayLoop_fold _ _ hnol, ih _ hrest,
        loadingFoldStep]

/-- A resource-pointer property whose loading has failed. -/
def cexResProperty : ReflectedProperty :=
  ⟨"m_res", "Texture", "", 1, PropertyTypeCategory.tResourcePtr,
    ArrayKind.scalar, 0, false⟩

/-- A nested-structure property placed after the resource pointer. -/
def cexStructProperty : ReflectedProperty :=
  ⟨"m_sub", "SubData", "", 2, PropertyTypeCategory.structType,
    ArrayKind.scalar, 0, false⟩

/-- The structure type combining the two properties. -/
def cexType : ReflectedType :=
  ⟨11, 1, 0, "EE::", "Cex", false, false, false, false,
    [cexResProperty, cexStructProperty], []⟩

/-- Observations: the resource pointer has failed to load and the nested
structure reports `Loaded`. -/
def cexEnv : LoadingEnv :=
  { resourceObs := fun _ _ => ResourceObservation.failed
    resourceArrayObs := fun _ => []
    nestedStatus := fun _ _ => LoadingStatus.Loaded
    nestedArrayStatus := fun _ => [] }

/-- C4 counterexample: on a type with a failed resource-pointer property
followed by a nested-structure property reporting `Loaded`, no check observes
still-loading and a failure is observed, yet the generated body returns
`Loaded` — the recorded failure is overwritten, contradicting the claim that a
recorded failure is never lost while later properties are checked. -/
theorem c4_counterexample :
    (∃ stmt ∈ GenerateTypeInfoResourceLoadingStatusMethod cexType,
      stmt.ObservesFailed cexEnv = true) ∧
    (∀ stmt ∈ GenerateTypeInfoResourceLoadingStatusMethod cexType,
      stmt.ObservesLoading cexEnv = false) ∧
    GetResourceLoadingStatus cexEnv cexType = LoadingStatus.Loaded := by
  refine ⟨⟨LoadingStmt.checkResource ("m_res") none false, by decide, by decide⟩,
    by decide, by decide⟩

/-- C4 (amended): any property observed as still loading causes an immediate
early return with `Loading`; when no property observes still loading, the
generated body computes the left fold in which a failed resource-pointer
observation sets the status to `Failed`, a fine one keeps it, and a
nested-structure check *overwrites* the running status with the nested result
(for dynamic arrays, with the last element's result) — so a recorded failure
survives only across resource-pointer checks and is lost when a later
nested-structure check reports a non-failed status. -/
theorem c4_loading_status_amended :
    ∀ (t : ReflectedType) (env : LoadingEnv),
      ((∃ stmt ∈ GenerateTypeInfoResourceLoadingStatusMethod t,
          stmt.ObservesLoading env = true) →
        GetResourceLoadingStatus env t = LoadingStatus.Loading) ∧
      ((∀ stmt ∈ GenerateTypeInfoResourceLoadingStatusMethod t,
          stmt.ObservesLoading env = false) →
        GetResourceLoadingStatus env t =
          (GenerateTypeInfoResourceLoadingStatusMethod t).foldl
            (loadingFoldStep env) LoadingStatus.Loaded) := by
  intro t env
  constructor
  · intro h
    exact runLoadingChecks_loading env _ _ h
  · intro h
    exact runLoadingChecks_fold env _ _ h

/-- C4 witness (amended): the no-loading hypothesis discharged on the
counterexample type, exhibiting the overwrite fold. -/
theorem c4_loading_status_amended_witness :
    GetResourceLoadingStatus cexEnv cexType =
      (GenerateTypeInfoResourceLoadingStatusMethod cexType).foldl
        (loadingFoldStep cexEnv) LoadingStatus.Loaded :=
  (c4_loading_status_amended cexType cexEnv).2 (by decide)

/-!
## Claim C6 -/

/-- A well-formed header whose types sort successfully. -/
def okHeader : ReflectedHeader := ⟨40, "Ok.h", "Ok_TypeInfo.h"⟩

/-- The module header of the well-formed project. -/
def okModuleHeader : ReflectedHeader := ⟨41, "OkModule.h", "OkModule_TypeInfo.h"⟩

/-- A root type registered in the well-formed header. -/
def okTypeA : ReflectedType :=
  ⟨1, 0, 40, "", "OkBase", false, false, false, false, [], []⟩

/-- A type derived from `okTypeA` in the well-formed header. -/
def okTypeB : ReflectedType :=
  ⟨2, 1, 40, "", "OkMid", false, false, false, false, [], []⟩

/-- A well-formed project holding the two types. -/
def okProject : ReflectedProject :=
  ⟨8, "OkProject", "EE::OkModule", 0, false, 41, [okModuleHeader, okHeader]⟩

/-- The database holding the well-formed project. -/
def okDb : ReflectionDatabase := ⟨[okProject], [okTypeA, okTypeB], [], []⟩

/-- C6: the generated `UnregisterTypes` body calls the per-type unregistration
functions in exactly the reverse of the order in which the `RegisterTypes` body
calls the registration functions — for the per-project aggregate source file
(whose bodies iterate the dependency-sorted type list forwards, respectively
backwards), and for the solution aggregate file (whose bodies iterate the
dependency-sorted project list forwards, respectively backwards). -/
theorem c6_register_unregister_mirror :
    (∀ ts : List ReflectedType,
      projectUnregisterTypeCalls ts = (projectRegisterTypeCalls ts).reverse) ∧
    (∀ (db : ReflectionDatabase) (project : ReflectedProject)
        (pid : Nat) (mn : String) (reg cdi unreg : List EmittedCall),
      GenerateProjectTypeInfoSourceFile db project =
        Except.ok (GFile.projectSource pid mn reg cdi unreg) →
      unreg = reg.reverse) ∧
    (∀ (db : ReflectionDatabase) (mode m : CompilationMode)
        (mi regP cdiP unregP : List String)
        (rr ur : List ReflectedResourceType) (hd : Bool),
      GenerateSolutionTypeRegistrationFile db mode =
        GFile.solutionRegistration m mi regP cdiP unregP rr ur hd →
      unregP = regP.reverse) := by
  have hmap : ∀ ts : List ReflectedType,
      projectUnregisterTypeCalls ts = (projectRegisterTypeCalls ts).reverse := by
    intro ts
    show ts.reverse.map unregisterTypeCallFor = (ts.map registerTypeCallFor).reverse
    rw [List.map_reverse]
    rfl
  refine ⟨hmap, ?_, ?_⟩
  · intro db project pid mn reg cdi unreg h
    simp only [GenerateProjectTypeInfoSourceFile] at h
    cases hs : SortTypesByDependencies (db.GetAllTypesForProject project.m_ID) with
    | mk ok sorted =>
      rw [hs] at h
      cases ok with
      | false => cases h
      | true =>
        have h2 := Except.ok.inj h
        injection h2 with _ _ hreg _ hunreg
        rw [← hreg, ← hunreg]
        exact hmap sorted
  · intro db mode m mi regP cdiP unregP rr ur hd h
    unfold GenerateSolutionTypeRegistrationFile at h
    injection h with _ _ hreg _ hunreg
    rw [← hreg, ← hunreg, List.map_reverse]

/-- C6 witness: the mirror equations instantiated on the well-formed project
and on the runtime solution file, with the generated outputs evaluated. -/
theorem c6_register_unregister_mirror_witness :
    projectUnregisterTypeCalls [okTypeA, okTypeB] =
      (projectRegisterTypeCalls [okTypeA, okTypeB]).reverse ∧
    ((solutionProjects okDb CompilationMode.Runtime).reverse.map
        sanitizedModuleName =
      ((solutionProjects okDb CompilationMode.Runtime).map
        sanitizedModuleName).reverse) :=
  ⟨c6_register_unregister_mirror.2.1 okDb okProject okProject.m_ID
      (sanitizedModuleName okProject)
      (projectRegisterTypeCalls [okTypeA, okTypeB])
      (projectCreateDefaultInstanceCalls [okTypeA, okTypeB])
      (projectUnregisterTypeCalls [okTypeA, okTypeB]) (by rfl),
   c6_register_unregister_mirror.2.2 okDb CompilationMode.Runtime
      CompilationMode.Runtime
      ((solutionProjects okDb CompilationMode.Runtime).map
        (fun p : ReflectedProject => p.m_name))
      ((solutionProjects okDb CompilationMode.Runtime).map sanitizedModuleName)
      ((solutionProjects okDb CompilationMode.Runtime).map sanitizedModuleName)
      ((solutionProjects okDb CompilationMode.Runtime).reverse.map
        sanitizedModuleName)
      (resourceRegistrationEntries CompilationMode.Runtime okDb.m_resourceTypes)
      (resourceUnregistrationEntries CompilationMode.Runtime okDb.m_resourceTypes)
      false (by rfl)⟩

/-!
## Claim C7 -/

/-- `erase_unsorted` shrinks the vector by one. -/
theorem eraseUnsorted_length {l : List ReflectedProject} {i : Nat}
    (h : i < l.length) : (eraseUnsorted l i).length = l.length - 1 := by
  simp [eraseUnsorted]

/-- `erase_unsorted` at index `i` leaves the first `i` elements unchanged. -/
theorem eraseUnsorted_take {l : List ReflectedProject} {i : Nat}
    (h : i < l.length) : (eraseUnsorted l i).take i = l.take i := by
  rw [eraseUnsorted, List.dropLast_eq_take, List.take_take, List.length_set,
    Nat.min_eq_left (by omega), List.set_take,
    List.set_eq_of_length_le (by rw [List.length_take]; exact Nat.min_le_left _ _)]

/-- Beyond index `i`, `erase_unsorted` at `i` keeps exactly the elements after
`i`, only moving the last one to the front of that suffix. -/
theorem eraseUnsorted_drop_perm {l : List ReflectedProject} {i : Nat}
    (h : i < l.length) : ((eraseUnsorted l i).drop i).Perm (l.drop (i + 1)) := by
  by_cases hlast : i + 1 = l.length
  · rw [List.drop_eq_nil_of_le (by rw [eraseUnsorted_length h]; omega),
      List.drop_eq_nil_of_le (by omega)]
  · have hi1 : i + 1 < l.length := by omega
    have hne : l ≠ [] := by
      intro hnil; rw [hnil] at h; simp at h
    have hdne : l.drop (i + 1) ≠ [] := by
      intro hnil
      have := List.drop_eq_nil_iff.mp hnil
      omega
    have hv : l.getLast?.getD default = l.getLast hne := by
      rw [List.getLast?_eq_getLast l hne]
      rfl
    have hstep : (eraseUnsorted l i).drop i =
        ((l.getLast?.getD default) :: l.drop (i + 1)).dropLast := by
      rw [eraseUnsorted, List.set_eq_take_append_cons_drop, if_pos h,
        List.dropLast_append_of_ne_nil _ (by simp)]
      exact List.drop_left' (by rw [List.length_take]; omega)
    rw [hstep]
    have hvd : (l.getLast?.getD default) :: l.drop (i + 1) ≠ [] := by simp
    have hglast : ((l.getLast?.getD default) :: l.drop (i + 1)).getLast hvd =
        l.getLast?.getD default := by
      rw [List.getLast_cons hdne, List.getLast_drop hdne, hv]
    have hconcat := List.dropLast_concat_getLast hvd
    rw [hglast] at hconcat
    have hperm : ((l.getLast?.getD default) :: l.drop (i + 1)).Perm
        ((l.getLast?.getD default) ::
          ((l.getLast?.getD default) :: l.drop (i + 1)).dropLast) := by
      conv_lhs => rw [← hconcat]
      exact List.perm_append_comm
    exact hperm.cons_inv.symm

/-- The filtering loop realises `take` + `filter`: starting at index `i`, the
already-scanned prefix survives as is and the rest is filtered by the selection
predicate, up to the reordering introduced by `erase_unsorted`. -/
theorem selectProjectsLoop_perm (mode : CompilationMode) :
    ∀ (n : Nat) (l : List ReflectedProject) (i : Nat), l.length - i ≤ n →
      (selectProjectsLoop mode n l i).Perm
        (l.take i ++ (l.drop i).filter (solutionProjectPredicate mode)) := by
  intro n
  induction n with
  | zero =>
    intro l i hn
    rw [selectProjectsLoop]
    rw [List.drop_eq_nil_of_le (by omega), List.filter_nil, List.append_nil,
      List.take_of_length_le (by omega)]
  | succ n ih =>
    intro l i hn
    by_cases h : i < l.length
    · rw [selectProjectsLoop, if_pos h]
      have hget : l.getD i default = l[i] := by
        rw [List.getD_eq_getElem?_getD, List.getElem?_eq_getElem h]
        rfl
      by_cases hb1 : (mode == CompilationMode.Runtime &&
          (l.getD i default).m_isToolsProject) = true
      · rw [if_pos hb1]
        rw [hget] at hb1
        simp only [Bool.and_eq_true] at hb1
        have hpred : solutionProjectPredicate mode (l[i]) = false := by
          simp [solutionProjectPredicate, hb1.1, hb1.2]
        refine (ih (eraseUnsorted l i) i
          (by rw [eraseUnsorted_length h]; omega)).trans ?_
        rw [eraseUnsorted_take h]
        refine List.Perm.append_left _ ?_
        refine ((eraseUnsorted_drop_perm h).filter _).trans ?_
        rw [List.drop_eq_getElem_cons h, List.filter_cons, hpred]
        rw [if_neg (by simp)]
      · rw [if_neg hb1]
        by_cases hb2 : (!(TypeID.IsValid (l.getD i default).m_moduleHeaderID))
            = true
        · rw [if_pos hb2]
          rw [hget] at hb2
          rw [Bool.not_eq_true'] at hb2
          have hpred : solutionProjectPredicate mode (l[i]) = false := by
            simp [solutionProjectPredicate, hb2]
          refine (ih (eraseUnsorted l i) i
            (by rw [eraseUnsorted_length h]; omega)).trans ?_
          rw [eraseUnsorted_take h]
          refine List.Perm.append_left _ ?_
          refine ((eraseUnsorted_drop_perm h).filter _).trans ?_
          rw [List.drop_eq_getElem_cons h, List.filter_cons, hpred]
          rw [if_neg (by simp)]
        · rw [if_neg hb2]
          rw [hget] at hb1 hb2
          have h1 : (mode == CompilationMode.Runtime &&
              (l[i]).m_isToolsProject) = false := Bool.eq_false_iff.mpr hb1
          have h2 : TypeID.IsValid (l[i]).m_moduleHeaderID = true := by
            have h2' := Bool.eq_false_iff.mpr hb2
            rw [Bool.not_eq_false'] at h2'
            exact h2'
          have hpred : solutionProjectPredicate mode (l[i]) = true := by
            unfold solutionProjectPredicate
            rw [h2, Bool.and_true, ← Bool.not_and, h1]
            rfl
          refine (ih l (i + 1) (by omega)).trans ?_
          rw [List.take_succ, List.getElem?_eq_getElem h,
            List.drop_eq_getElem_cons h, List.filter_cons, hpred, if_pos rfl,
            List.append_assoc]
          exact List.Perm.refl _
    · rw [selectProjectsLoop, if_neg h]
      rw [List.drop_eq_nil_of_le (by omega), List.filter_nil, List.append_nil,
        List.take_of_length_le (by omega)]

instance : IsTotal ReflectedProject
    (fun a b => a.m_dependencyCount ≤ b.m_dependencyCount) :=
  ⟨fun a b => Nat.le_total _ _⟩

instance : IsTrans ReflectedProject
    (fun a b => a.m_dependencyCount ≤ b.m_dependencyCount) :=
  ⟨fun _ _ _ => Nat.le_trans⟩

/-- C7: for each compilation mode, the solution registration file is built from
exactly the projects accepted by the selection predicate — a valid module
header reference and, in runtime mode only, not a tools project — ordered by
ascending inter-project dependency count; the file's register /
create-default / unregister call lists enumerate that project list. -/
theorem c7_solution_project_selection (db : ReflectionDatabase)
    (mode : CompilationMode) :
    (∀ p : ReflectedProject, solutionProjectPredicate mode p = true ↔
      (TypeID.IsValid p.m_moduleHeaderID = true ∧
       (mode = CompilationMode.Runtime → p.m_isToolsProject = false))) ∧
    (solutionProjects db mode).Perm
      (db.GetReflectedProjects.filter (solutionProjectPredicate mode)) ∧
    (solutionProjects db mode).Pairwise
      (fun a b => a.m_dependencyCount ≤ b.m_dependencyCount) ∧
    GenerateSolutionTypeRegistrationFile db mode =
      GFile.solutionRegistration mode
        ((solutionProjects db mode).map (fun p => p.m_name))
        ((solutionProjects db mode).map sanitizedModuleName)
        ((solutionProjects db mode).map sanitizedModuleName)
        ((solutionProjects db mode).reverse.map sanitizedModuleName)
        (resourceRegistrationEntries mode db.m_resourceTypes)
        (resourceUnregistrationEntries mode db.m_resourceTypes)
        (mode == CompilationMode.Tools) := by
  refine ⟨?_, ?_, ?_, rfl⟩
  · intro p
    cases mode <;> simp [solutionProjectPredicate, and_comm]
  · unfold solutionProjects eastlSortProjectsByDependencyCount
    refine (List.perm_insertionSort _ _).trans ?_
    have hloop := selectProjectsLoop_perm mode db.GetReflectedProjects.length
      db.GetReflectedProjects 0 (by omega)
    simpa using hloop
  · exact List.sorted_insertionSort _ _

/-- A tools-only project, rejected in runtime mode. -/
def toolsOnlyProject : ReflectedProject :=
  ⟨9, "ToolsPrj", "EE::ToolsModule", 5, true, 42, []⟩

/-- A project without a module header, rejected in both modes. -/
def headerlessProject : ReflectedProject :=
  ⟨10, "NoModulePrj", "EE::NoModule", 0, false, 0, []⟩

/-- An accepted project with the larger dependency count. -/
def latePrj : ReflectedProject :=
  ⟨11, "LatePrj", "EE::LateModule", 3, false, 43, []⟩

/-- An accepted project with the smaller dependency count. -/
def earlyPrj : ReflectedProject :=
  ⟨12, "EarlyPrj", "EE::EarlyModule", 1, false, 44, []⟩

/-- A database exercising both rejection rules and the dependency sort. -/
def c7Db : ReflectionDatabase :=
  ⟨[toolsOnlyProject, headerlessProject, latePrj, earlyPrj], [], [], []⟩

/-- C7 witness: on the mixed database, runtime-mode selection keeps exactly the
two accepted projects and orders them by dependency count. -/
theorem c7_solution_project_selection_witness :
    (solutionProjects c7Db CompilationMode.Runtime).Perm
      (c7Db.GetReflectedProjects.filter
        (solutionProjectPredicate CompilationMode.Runtime)) ∧
    (solutionProjects c7Db CompilationMode.Runtime).Pairwise
      (fun a b => a.m_dependencyCount ≤ b.m_dependencyCount) ∧
    solutionProjects c7Db CompilationMode.Runtime = [earlyPrj, latePrj] :=
  ⟨(c7_solution_project_selection c7Db CompilationMode.Runtime).2.1,
   (c7_solution_project_selection c7Db CompilationMode.Runtime).2.2.1,
   by decide⟩

/-!
## Claim C8 -/

/-- Every block assembled around a type-info block carries the type's
development-only flag as its guard. -/
theorem mem_guard_parts {t : ReflectedType} {item : HeaderFileItem}
    (blockItems : List HeaderFileItem)
    (hblock : ∀ b ∈ blockItems, b.m_guarded = t.m_isDevOnly)
    (hmem : item ∈ blockItems ++
      (if t.IsEntityComponent then
        [⟨HeaderItemKind.componentBlock, sanitizedTypeName t,
          t.m_isDevOnly, none⟩]
      else []) ++
      [⟨HeaderItemKind.registerFnDef, sanitizedTypeName t,
        t.m_isDevOnly, none⟩] ++
      (if !t.IsAbstract && !t.IsEnum then
        [⟨HeaderItemKind.createDefaultFnDef, sanitizedTypeName t,
          t.m_isDevOnly, none⟩]
      else []) ++
      [⟨HeaderItemKind.unregisterFnDef, sanitizedTypeName t,
        t.m_isDevOnly, none⟩]) :
    item.m_guarded = t.m_isDevOnly := by
  simp only [List.mem_append] at hmem
  rcases hmem with ((((hb | hc) | hr) | hcd) | hu)
  · exact hblock _ hb
  · split at hc
    · simp at hc; rw [hc]
    · simp at hc
  · simp at hr; rw [hr]
  · split at hcd
    · simp at hcd; rw [hcd]
    · simp at hcd
  · simp at hu; rw [hu]

/-- An `Except.map` that produced a success did so from a success. -/
theorem except_map_eq_ok {ε α β : Type} {f : α → β} {x : Except ε α} {b : β}
    (h : x.map f = Except.ok b) : ∃ a, x = Except.ok a ∧ f a = b := by
  cases x with
  | error e => simp [Except.map] at h
  | ok a =>
    refine ⟨a, rfl, ?_⟩
    simpa [Except.map] using h

/-- Every block emitted for a type into the per-header type-info file carries
the type's development-only flag as its guard. -/
theorem generateTypeInfoForType_guarded (db : ReflectionDatabase)
    (t : ReflectedType) (items : List HeaderFileItem)
    (hok : GenerateTypeInfoForType db t = Except.ok items) :
    ∀ item ∈ items, item.m_guarded = t.m_isDevOnly := by
  simp only [GenerateTypeInfoForType] at hok
  obtain ⟨v, hv, hf⟩ := except_map_eq_ok hok
  intro item hmem
  rw [← hf] at hmem
  refine mem_guard_parts _ ?_ hmem
  intro b hb
  split at hv
  · injection hv with h1
    rw [← h1] at hb
    simp at hb
    rw [hb]
  · split at hv
    · exact Except.noConfusion hv
    · split at hv
      · exact Except.noConfusion hv
      · injection hv with h1
        rw [← h1] at hb
        simp at hb
        rw [hb]

/-- C8: every block emitted for a development-only type into the per-header
type-info file, every declaration emitted for it into the project type-info
header, and every aggregate call emitted for it is wrapped in the
development-tools guard; and a development-only resource type is omitted from
the runtime-mode resource registration and unregistration lists while being
included in the tools-mode ones. -/
theorem c8_dev_only_guarding :
    (∀ (db : ReflectionDatabase) (t : ReflectedType)
        (items : List HeaderFileItem),
      GenerateTypeInfoForType db t = Except.ok items →
      t.m_isDevOnly = true → ∀ item ∈ items, item.m_guarded = true) ∧
    (∀ t : ReflectedType, t.m_isDevOnly = true →
      (∀ d ∈ projectHeaderDeclsFor t, d.m_guarded = true) ∧
      (registerTypeCallFor t).m_guarded = true ∧
      (createDefaultInstanceCallFor t).m_guarded = true ∧
      (unregisterTypeCallFor t).m_guarded = true) ∧
    (∀ (resourceTypes : List ReflectedResourceType)
        (r : ReflectedResourceType),
      r ∈ resourceTypes → r.m_isDevOnly = true →
      (r ∉ resourceRegistrationEntries CompilationMode.Runtime resourceTypes ∧
       r ∉ resourceUnregistrationEntries CompilationMode.Runtime
         resourceTypes) ∧
      (r ∈ resourceRegistrationEntries CompilationMode.Tools resourceTypes ∧
       r ∈ resourceUnregistrationEntries CompilationMode.Tools
         resourceTypes)) := by
  refine ⟨?_, ?_, ?_⟩
  · intro db t items hok hdev item hmem
    rw [generateTypeInfoForType_guarded db t items hok item hmem, hdev]
  · intro t hdev
    refine ⟨?_, ?_, ?_, ?_⟩
    · intro d hd
      simp only [projectHeaderDeclsFor, List.mem_append] at hd
      rcases hd with (hr | hc) | hu
      · simp at hr; rw [hr, hdev]
      · split at hc
        · simp at hc; rw [hc, hdev]
        · simp at hc
      · simp at hu; rw [hu, hdev]
    · rw [registerTypeCallFor]; exact hdev
    · rw [createDefaultInstanceCallFor]; exact hdev
    · rw [unregisterTypeCallFor]; exact hdev
  · intro resourceTypes r hmem hdev
    refine ⟨⟨?_, ?_⟩, ?_, ?_⟩
    · intro hc
      have := (List.mem_filter.mp hc).2
      simp [hdev] at this
    · intro hc
      have := (List.mem_filter.mp hc).2
      simp [hdev] at this
    · exact List.mem_filter.mpr ⟨hmem, by simp⟩
    · exact List.mem_filter.mpr ⟨List.mem_reverse.mpr hmem, by simp⟩

/-- A development-only type derived from `okTypeA`. -/
def devType : ReflectedType :=
  ⟨5, 1, 40, "", "DevType", false, false, true, false, [], []⟩

/-- A development-only resource type. -/
def devResource : ReflectedResourceType :=
  ⟨6, "DRES", "DevResource", [], true⟩

/-- The blocks emitted for `devType`. -/
def devItems : List HeaderFileItem :=
  [⟨HeaderItemKind.typeInfoBlock, "DevType", true,
      some (TypeInfoPayload.structInfo [])⟩,
   ⟨HeaderItemKind.registerFnDef, "DevType", true, none⟩,
   ⟨HeaderItemKind.createDefaultFnDef, "DevType", true, none⟩,
   ⟨HeaderItemKind.unregisterFnDef, "DevType", true, none⟩]

/-- C8 witness: the guarding facts discharged on a concrete development-only
type and resource type. -/
theorem c8_dev_only_guarding_witness :
    (∀ item ∈ devItems, item.m_guarded = true) ∧
    (∀ d ∈ projectHeaderDeclsFor devType, d.m_guarded = true) ∧
    devResource ∉
      resourceRegistrationEntries CompilationMode.Runtime [devResource] ∧
    devResource ∈
      resourceRegistrationEntries CompilationMode.Tools [devResource] :=
  ⟨c8_dev_only_guarding.1 okDb devType devItems (by rfl) rfl,
   (c8_dev_only_guarding.2.1 devType rfl).1,
   ((c8_dev_only_guarding.2.2 [devResource] devResource (by simp) rfl).1).1,
   ((c8_dev_only_guarding.2.2 [devResource] devResource (by simp) rfl).2).1⟩

/-!
## Claim C1 -/

/-- C1: the spec demands that a failing per-project generation abort the whole
solution generation with an overall failure, but the per-project call inside
`GenerateCodeForSolution` (line 110) discards its Boolean result.  On the
database holding the cyclic project, per-project generation fails with the
cyclic-dependency error, yet solution generation still runs every remaining
step, appends the per-header file produced before the failure together with
both solution registration files, and reports overall success. -/
theorem c1_project_failure_not_propagated :
    (GenerateCodeForProject cycDb cycProject ⟨[], ""⟩).1 = false ∧
    (GenerateCodeForProject cycDb cycProject ⟨[], ""⟩).2.m_errorMessage =
      cyclicDependencyMessage cycProject ∧
    (GenerateCodeForSolution cycDb ⟨[], ""⟩).1 = true ∧
    (GenerateCodeForSolution cycDb ⟨[], ""⟩).2.m_errorMessage =
      cyclicDependencyMessage cycProject ∧
    (GenerateCodeForSolution cycDb ⟨[], ""⟩).2.m_generatedFiles.length = 3 := by
  refine ⟨?_, ?_, ?_, ?_, ?_⟩ <;> decide

end EE


